import Mathlib

/-!
Verification development for the piaa feature pipeline
(`src/features/feature_engineering.py`, `src/features/feature_filter.py`,
`src/features/feature_selection.py`, `transform_data.py`).

The embedding is shallow: pandas Series/DataFrames become association lists
of named columns whose cells are `Option` values (missing = `none`); machine
floats become exact rationals; Python dict assignment becomes `upsert`;
exceptions become `Except String`.
-/

namespace Piaa

/-! ## Generic cell / column helpers -/

/-- A pandas Series of floats: one cell per row, `none` = NaN/missing. -/
abbrev NumCol := List (Option ℚ)

/-- A pandas Series of strings (object dtype), `none` = NaN/missing. -/
abbrev CatCol := List (Option String)

/-- A dataframe restricted to float columns: named columns in order. -/
abbrev NumDF := List (String × NumCol)

/-- A dataframe restricted to object columns. -/
abbrev CatDF := List (String × CatCol)

/-- Series.dropna: the non-missing cell values, in row order. -/
def dropna {α : Type} (xs : List (Option α)) : List α := xs.filterMap id

/-- First-occurrence distinct values, as pandas Series.unique returns them. -/
def uniquesFO {α : Type} [DecidableEq α] (xs : List α) : List α :=
  xs.foldl (fun acc x => if x ∈ acc then acc else acc ++ [x]) []

/-- Series.nunique: number of distinct non-missing values. -/
def nuniqueO {α : Type} [DecidableEq α] (xs : List (Option α)) : Nat :=
  (uniquesFO (dropna xs)).length

/-- Dictionary lookup on an association list (Python dict get by key). -/
def alookup {α : Type} : List (String × α) → String → Option α
  | [], _ => none
  | p :: ps, k => if p.1 = k then some p.2 else alookup ps k

/-- Python dict/DataFrame assignment `d[k] = v`: replace the binding if the
key exists (keeping its position), else append it. -/
def upsert {α : Type} : List (String × α) → String → α → List (String × α)
  | [], k, v => [(k, v)]
  | p :: ps, k, v => if p.1 = k then (k, v) :: ps else p :: upsert ps k v

/-- Perform a sequence of dict assignments in order. -/
def writeAll {α : Type} (l : List (String × α)) (ws : List (String × α)) : List (String × α) :=
  ws.foldl (fun acc kv => upsert acc kv.1 kv.2) l

/-- The value of the last write to key `k` in a write sequence, if any. -/
def lastW {α : Type} : List (String × α) → String → Option α
  | [], _ => none
  | w :: ws, k => (lastW ws k).or (if w.1 = k then some w.2 else none)

/-- Column access `df[c]` (callers only use columns that are present). -/
def colOf {α : Type} (df : List (String × List (Option α))) (c : String) : List (Option α) :=
  (alookup df c).getD []

/-! ## Numeric primitives (numpy / pandas semantics on exact rationals) -/

/-- Minimum of a list (Series.min); 0 as the junk value on the empty list. -/
def listMin (xs : List ℚ) : ℚ :=
  match xs with
  | [] => 0
  | x :: rest => rest.foldl min x

/-- Maximum of a list (Series.max); 0 as the junk value on the empty list. -/
def listMax (xs : List ℚ) : ℚ :=
  match xs with
  | [] => 0
  | x :: rest => rest.foldl max x

/-- Linear interpolation at the virtual index `h` into a sorted sample, as
np.percentile does: between the order statistics at floor(h) and
floor(h)+1. -/
def interpAt (s : List ℚ) (h : ℚ) : ℚ :=
  let i : Nat := (⌊h⌋).toNat
  let lo := s.getD i 0
  let hi := s.getD (i + 1) lo
  lo + (h - i) * (hi - lo)

/-- np.percentile with the default linear interpolation: virtual index
`h = q * (n - 1) / 100` into the sorted data.  numpy raises on empty
input; the model returns 0 there and theorems carry a nonemptiness
hypothesis instead. -/
def percentile (xs : List ℚ) (q : ℚ) : ℚ :=
  let s := List.insertionSort (· ≤ ·) xs
  if s.length = 0 then 0 else interpAt s (q * (s.length - 1) / 100)

/-- Series.clip(lower, upper): apply the lower bound, then the upper bound. -/
def clipQ (v lower upper : ℚ) : ℚ := min (max v lower) upper

/-- np.linspace from `mn` with the given step: `n + 1` points. -/
def linEdges (mn step : ℚ) : Nat → List ℚ
  | 0 => [mn]
  | n + 1 => mn :: linEdges (mn + step) step n

/-- The bin edges pd.cut computes for an integer `bins=n` argument:
linspace over the data range, with the range widened when it is a single
point, and otherwise the first edge lowered by 0.1% of the range
(right=True default). -/
def fitEdges (mn mx : ℚ) (n : Nat) : List ℚ :=
  if mn = mx then
    let mn' := mn - (if mn = 0 then 1 / 1000 else |mn| / 1000)
    let mx' := mx + (if mx = 0 then 1 / 1000 else |mx| / 1000)
    linEdges mn' ((mx' - mn') / n) n
  else
    match linEdges mn ((mx - mn) / n) n with
    | [] => []
    | e0 :: rest => (e0 - (mx - mn) / 1000) :: rest

/-- Index of the right-closed interval `(e_i, e_{i+1}]` containing `v`. -/
def cutSearch : List ℚ → ℚ → Option Nat
  | e0 :: e1 :: rest, v =>
    if e0 < v ∧ v ≤ e1 then some 0 else (cutSearch (e1 :: rest) v).map (· + 1)
  | _, _ => none

/-- pd.cut interval assignment against explicit edges; with
`incLowest = true` the first interval is closed on the left
(include_lowest=True).  Out-of-range values get no interval (NaN). -/
def cutIdx (edges : List ℚ) (incLowest : Bool) (v : ℚ) : Option Nat :=
  match edges with
  | e0 :: e1 :: rest =>
    if (if incLowest then e0 ≤ v else e0 < v) ∧ v ≤ e1 then some 0
    else (cutSearch (e1 :: rest) v).map (· + 1)
  | _ => none

/-- duplicates='drop': collapse equal consecutive edges. -/
def dedupC : List ℚ → List ℚ
  | [] => []
  | [e] => [e]
  | e0 :: e1 :: rest => if e0 = e1 then dedupC (e1 :: rest) else e0 :: dedupC (e1 :: rest)

/-- pd.cut(series, bins=n, retbins=True, labels=False, duplicates='drop'):
integer labels (as floats, NaN for missing) plus the computed edges.
`none` models the exceptions pd.cut raises (no valid values, bins < 1),
which the caller catches and turns into a warning. -/
def pdCutFit (xs : NumCol) (n : Nat) : Option (NumCol × List ℚ) :=
  if n = 0 then none
  else
    let vals := dropna xs
    if vals.isEmpty then none
    else
      let edges := fitEdges (listMin vals) (listMax vals) n
      some (xs.map (fun o => o.bind (fun v => (cutIdx edges false v).map (fun i => (i : ℚ)))), edges)

/-- pd.cut(series, bins=edges, labels=False, include_lowest=True,
duplicates='drop') as used at replay time. -/
def pdCutEdgesL (xs : NumCol) (edges : List ℚ) : NumCol :=
  let e := dedupC edges
  xs.map (fun o => o.bind (fun v => (cutIdx e true v).map (fun i => (i : ℚ))))

/-! ## FeatureEngineer (feature_engineering.py) -/

/-- FeatureTransformConfig: the capping percentile pair is split into its
two components. -/
structure FeatureTransformConfig where
  capLo : ℚ := 1
  capHi : ℚ := 99
  n_bins_options : List Nat := [10, 20]
  min_category_freq : ℚ := 1 / 100

/-- One entry of FeatureEngineer.transform_stats. -/
inductive TStat where
  | binaryNum (unique_values : List ℚ)
  | binaryCat (unique_values : List String)
  | capped (lower upper : ℚ)
  | binned (n_bins : Nat) (bin_edges : List ℚ)
  | categoricalGrouped (mapping : List (String × String)) (rare_categories : List String)
      (min_freq : ℚ)
deriving DecidableEq

/-- The mutable state of a FeatureEngineer instance. -/
structure FEState where
  config : FeatureTransformConfig
  transform_stats : List (String × TStat) := []
  feature_mapping : List (String × List String) := []
  binary_features : List String := []
  target_col : Option String := none

/-- A freshly constructed FeatureEngineer. -/
def initFE (cfg : FeatureTransformConfig) : FEState :=
  { config := cfg }

/-- The effect of the `if target_col: self.target_col = target_col` guard
(falsy for None and for the empty string). -/
def setTarget (s : FEState) (tgt : Option String) : FEState :=
  match tgt with
  | some t => if t = "" then s else { s with target_col := some t }
  | none => s

/-- Name of the capped variant. -/
def cappedName (c : String) : String := c ++ "_capped"

/-- Name of a binned variant. -/
def binName (c : String) (n : Nat) : String := c ++ "_binned_" ++ toString n

/-- The derived columns fit_transform_numerical creates for one
non-binary, non-target column: name, cell values and stored stats, in
creation order (capped first, then each bin count with enough valid
values for which pd.cut succeeds). -/
def numDerive (cfg : FeatureTransformConfig) (xs : NumCol) (c : String) :
    List (String × NumCol × TStat) :=
  let vals := dropna xs
  let lower := percentile vals cfg.capLo
  let upper := percentile vals cfg.capHi
  (cappedName c, xs.map (Option.map (fun v => clipQ v lower upper)), TStat.capped lower upper) ::
    cfg.n_bins_options.filterMap (fun n =>
      if vals.length ≥ n then
        (pdCutFit xs n).map (fun p => (binName c n, p.1, TStat.binned n p.2))
      else none)

/-- The columns detected as binary (exactly two distinct non-missing
values) among the requested columns, duplicates preserved. -/
def binaryColsN (df : NumDF) (cols : List String) : List String :=
  cols.filter (fun c => nuniqueO (colOf df c) == 2)

/-- The columns fit_transform_numerical actually derives variants for. -/
def colsToTransformN (df : NumDF) (cols : List String) (eff : Option String) : List String :=
  cols.filter (fun c => decide (eff ≠ some c) && !((binaryColsN df cols).contains c))

/-- FeatureEngineer.fit_transform_numerical: detect binary columns, record
binary stats and identity mappings, then derive capped and binned variants
for the remaining non-target columns, accumulating state. -/
def fit_transform_numerical (s0 : FEState) (df : NumDF) (cols : List String)
    (tgt : Option String) : FEState × NumDF :=
  let s := setTarget s0 tgt
  let binCols := binaryColsN df cols
  let s : FEState :=
    { s with
      transform_stats :=
        writeAll s.transform_stats
          (binCols.map (fun c => (c, TStat.binaryNum (uniquesFO (dropna (colOf df c)))))),
      binary_features := s.binary_features ++ binCols }
  let s : FEState :=
    { s with feature_mapping := writeAll s.feature_mapping (binCols.map (fun c => (c, [c]))) }
  let colsT := colsToTransformN df cols s.target_col
  let dcols := colsT.map (fun c => (c, numDerive s.config (colOf df c) c))
  let s : FEState :=
    { s with
      feature_mapping :=
        writeAll s.feature_mapping (dcols.map (fun p => (p.1, p.2.map (·.1)))),
      transform_stats :=
        writeAll s.transform_stats (dcols.flatMap (fun p => p.2.map (fun d => (d.1, d.2.2)))) }
  (s, writeAll df (dcols.flatMap (fun p => p.2.map (fun d => (d.1, d.2.1)))))

/-- The ValueError raised when a column was not fitted. -/
def notFittedMsg (c : String) : String :=
  "Feature " ++ c ++ " not fitted. Call fit_transform first."

/-- Replay one fitted stat on the (possibly new) data of the source column. -/
def applyStatN (xs : NumCol) : TStat → Option NumCol
  | TStat.capped lo hi => some (xs.map (Option.map (fun v => clipQ v lo hi)))
  | TStat.binned _ edges => some (pdCutEdgesL xs edges)
  | _ => none

/-- Inner loop of transform_numerical over one column's transformed names:
look up each stat (a missing key is a Python KeyError) and recompute the
capped / binned values; other stat kinds fall through the if/elif. -/
def applyTcolsN (s : FEState) (df : NumDF) (c : String) :
    List String → NumDF → Except String NumDF
  | [], acc => Except.ok acc
  | t :: ts, acc =>
    match alookup s.transform_stats t with
    | none => Except.error ("KeyError: " ++ t)
    | some st =>
      match applyStatN (colOf df c) st with
      | some vs => applyTcolsN s df c ts (upsert acc t vs)
      | none => applyTcolsN s df c ts acc

/-- Outer loop of transform_numerical over the requested columns. -/
def transformNGo (s : FEState) (df : NumDF) : List String → NumDF → Except String NumDF
  | [], acc => Except.ok acc
  | c :: cs, acc =>
    match alookup s.feature_mapping c with
    | none => Except.error (notFittedMsg c)
    | some ts =>
      match applyTcolsN s df c ts acc with
      | Except.error e => Except.error e
      | Except.ok acc' => transformNGo s df cs acc'

/-- FeatureEngineer.transform_numerical: replay fitted numerical
transformations; raises if any requested column was never fitted.  The
method never writes to the instance state. -/
def transform_numerical (s : FEState) (df : NumDF) (cols : List String) :
    Except String NumDF :=
  transformNGo s df cols df

/-! ### Categorical transformations -/

/-- Count of a value's occurrences in a list. -/
def countOf (xs : List String) (c : String) : Nat := xs.countP (· == c)

/-- The index of Series.value_counts(normalize=True): distinct non-missing
values sorted by count descending, ties kept in first-occurrence order
(Python's sort is stable, and insertion sort placing the earlier element
first on ties matches it). -/
def valueCountsIdx (xs : CatCol) : List String :=
  let vs := dropna xs
  List.insertionSort (fun a b => countOf vs b ≤ countOf vs a) (uniquesFO vs)

/-- Normalized frequency of one category among the non-missing values. -/
def freqOf (xs : CatCol) (c : String) : ℚ :=
  let vs := dropna xs
  (countOf vs c : ℚ) / (vs.length : ℚ)

/-- The rare categories: frequency strictly below the configured minimum,
listed in value_counts order. -/
def rareOf (cfg : FeatureTransformConfig) (xs : CatCol) : List String :=
  (valueCountsIdx xs).filter (fun c => freqOf xs c < cfg.min_category_freq)

/-- The synthesized label the rare categories are grouped under. -/
def otherLabel (rare : List String) : String :=
  if rare.length ≤ 3 then String.intercalate "_" (rare.take 3) ++ "_other"
  else String.intercalate "_" (rare.take 2) ++ "_other"

/-- The category mapping dict: every category maps to itself except the
rare ones, which map to the synthesized label. -/
def catMapping (cfg : FeatureTransformConfig) (xs : CatCol) : List (String × String) :=
  let rare := rareOf cfg xs
  (valueCountsIdx xs).map (fun c => (c, if c ∈ rare then otherLabel rare else c))

/-- Name of the grouped variant. -/
def groupedName (c : String) : String := c ++ "_grouped"

/-- The grouped cell values at fit time: Series.map with a dict leaves
missing cells (and values absent from the dict) missing. -/
def groupedVals (cfg : FeatureTransformConfig) (xs : CatCol) : CatCol :=
  xs.map (fun o => o.bind (fun v => alookup (catMapping cfg xs) v))

/-- The derived-column names fit_transform_numerical can create for one
column. -/
def derivedNamesN (cfg : FeatureTransformConfig) (c : String) : List String :=
  cappedName c :: cfg.n_bins_options.map (binName c)

/-- The full name pool a numerical fit works with: original column names
plus every derivable variant name.  Well-formed inputs have no clashes in
this pool. -/
def allNamesN (cfg : FeatureTransformConfig) (cols : List String) : List String :=
  cols ++ cols.flatMap (derivedNamesN cfg)

/-- The full name pool of a categorical fit: original column names plus
the grouped variant names. -/
def allNamesC (cols : List String) : List String :=
  cols ++ cols.map groupedName

/-- Binary detection among the categorical columns. -/
def binaryColsC (df : CatDF) (cols : List String) : List String :=
  cols.filter (fun c => nuniqueO (colOf df c) == 2)

/-- The categorical columns fit_transform_categorical considers for
grouping. -/
def colsToTransformC (df : CatDF) (cols : List String) (eff : Option String) : List String :=
  cols.filter (fun c => decide (eff ≠ some c) && !((binaryColsC df cols).contains c))

/-- FeatureEngineer.fit_transform_categorical: detect binary columns
(identity mapping, but only when the column has no mapping yet), then for
each remaining non-target column group its rare categories if any exist,
else map the column to itself. -/
def fit_transform_categorical (s0 : FEState) (df : CatDF) (cols : List String)
    (tgt : Option String) : FEState × CatDF :=
  let s := setTarget s0 tgt
  let binCols := binaryColsC df cols
  let s : FEState :=
    { s with
      transform_stats :=
        writeAll s.transform_stats
          (binCols.map (fun c => (c, TStat.binaryCat (uniquesFO (dropna (colOf df c)))))),
      binary_features := s.binary_features ++ binCols }
  let s : FEState :=
    { s with
      feature_mapping :=
        binCols.foldl
          (fun m c => match alookup m c with
            | none => upsert m c [c]
            | some _ => m)
          s.feature_mapping }
  let colsT := colsToTransformC df cols s.target_col
  let s : FEState :=
    { s with
      feature_mapping :=
        writeAll s.feature_mapping
          (colsT.map (fun c =>
            (c, if rareOf s.config (colOf df c) = [] then [c] else [groupedName c]))),
      transform_stats :=
        writeAll s.transform_stats
          (colsT.filterMap (fun c =>
            let rare := rareOf s.config (colOf df c)
            if rare = [] then none
            else
              some (groupedName c,
                TStat.categoricalGrouped (catMapping s.config (colOf df c)) rare
                  s.config.min_category_freq))) }
  (s,
    writeAll df
      (colsT.filterMap (fun c =>
        if rareOf s.config (colOf df c) = [] then none
        else some (groupedName c, groupedVals s.config (colOf df c)))))

/-- The fallback label transform_categorical uses for categories unseen at
fit time (and, via the lambda, for missing cells). -/
def fallbackLabel (rare : List String) : String :=
  match rare with
  | r :: _ => r ++ "_other"
  | [] => "unknown"

/-- Replay of one grouped column on possibly new data:
Series.map(lambda x: mapping.get(x, default)) applies the lambda to every
cell, missing ones included, so no cell of the result is missing. -/
def regroupVals (m : List (String × String)) (rare : List String) (xs : CatCol) : CatCol :=
  xs.map (fun o =>
    some (match o with
      | some v => (alookup m v).getD (fallbackLabel rare)
      | none => fallbackLabel rare))

/-- Inner loop of transform_categorical over one column's transformed
names; names equal to the source column are passed through untouched, and
a stat without a stored category mapping is a Python KeyError. -/
def applyTcolsC (s : FEState) (df : CatDF) (c : String) :
    List String → CatDF → Except String CatDF
  | [], acc => Except.ok acc
  | t :: ts, acc =>
    if t = c then applyTcolsC s df c ts acc
    else
      match alookup s.transform_stats t with
      | none => Except.error ("KeyError: " ++ t)
      | some (TStat.categoricalGrouped m rare _) =>
        applyTcolsC s df c ts (upsert acc t (regroupVals m rare (colOf df c)))
      | some _ => Except.error "KeyError: mapping"

/-- Outer loop of transform_categorical. -/
def transformCGo (s : FEState) (df : CatDF) : List String → CatDF → Except String CatDF
  | [], acc => Except.ok acc
  | c :: cs, acc =>
    match alookup s.feature_mapping c with
    | none => Except.error (notFittedMsg c)
    | some ts =>
      match applyTcolsC s df c ts acc with
      | Except.error e => Except.error e
      | Except.ok acc' => transformCGo s df cs acc'

/-- FeatureEngineer.transform_categorical: replay fitted categorical
groupings; raises if any requested column was never fitted. -/
def transform_categorical (s : FEState) (df : CatDF) (cols : List String) :
    Except String CatDF :=
  transformCGo s df cols df

/-! ## FeatureFilter (feature_filter.py) -/

/-- A stored column of either dtype. -/
inductive FCol where
  | num (cells : List (Option ℚ))
  | cat (cells : List (Option String))
deriving DecidableEq

/-- A mixed-dtype dataframe with an explicit row count. -/
structure FDF where
  nrows : Nat
  data : List (String × FCol)
deriving DecidableEq

/-- FeatureFilterConfig, exactly the fields the dataclass declares; note
that there is no max_cardinality_ratio field. -/
structure FeatureFilterConfig where
  max_missing_rate : ℚ := 9 / 10
  max_cardinality_numeric : Nat := 1000
  max_cardinality_categorical : Nat := 100
  min_variance : ℚ := 0
  max_correlation : ℚ := 99 / 100

/-- Column access on a mixed dataframe. -/
def fcolOf (df : FDF) (c : String) : FCol :=
  (alookup df.data c).getD (FCol.num [])

/-- isna().sum(): number of missing cells. -/
def isnaCount : FCol → Nat
  | FCol.num l => l.countP (·.isNone)
  | FCol.cat l => l.countP (·.isNone)

/-- nunique on a mixed column. -/
def nuniqueF : FCol → Nat
  | FCol.num l => nuniqueO l
  | FCol.cat l => nuniqueO l

/-- pd.api.types.is_numeric_dtype. -/
def isNumDtype : FCol → Bool
  | FCol.num _ => true
  | FCol.cat _ => false

/-- The value of Series.var(): None when the report never computes it,
NaN (ddof=1 with fewer than two values), or a rational. -/
inductive VarVal where
  | noneV
  | nanV
  | val (v : ℚ)
deriving DecidableEq

/-- Mean of a list of rationals. -/
def meanQ (xs : List ℚ) : ℚ := xs.sum / (xs.length : ℚ)

/-- Series.var(): pandas sample variance with ddof=1, NaN below two
values. -/
def varOf : FCol → VarVal
  | FCol.cat _ => VarVal.nanV
  | FCol.num l =>
    let vs := dropna l
    if vs.length ≤ 1 then VarVal.nanV
    else VarVal.val ((vs.map (fun v => (v - meanQ vs) ^ 2)).sum / ((vs.length : ℚ) - 1))

/-- One record of FeatureFilter.filter_report. -/
structure ColReport where
  ctype : String
  missing_rate : ℚ
  cardinality : Nat
  variance : VarVal
  kept : Bool
  removal_reason : Option String
deriving DecidableEq

/-- The per-column record FeatureFilter.fit computes, mirroring the
sequential if/elif chain: high missingness first, then the numeric and
categorical cardinality caps (both >=), then zero variance, where a NaN
variance compares false and keeps the column. -/
def mkReport (cfg : FeatureFilterConfig) (df : FDF) (numCols catCols : List String)
    (c : String) : ColReport :=
  let x := fcolOf df c
  let base : ColReport :=
    { ctype := if c ∈ numCols then "numerical" else "categorical"
      missing_rate := (isnaCount x : ℚ) / (df.nrows : ℚ)
      cardinality := nuniqueF x
      variance := if c ∈ numCols ∧ isNumDtype x then varOf x else VarVal.noneV
      kept := true
      removal_reason := none }
  if base.missing_rate > cfg.max_missing_rate then
    { base with kept := false, removal_reason := some "high_missingness" }
  else if c ∈ numCols ∧ base.cardinality ≥ cfg.max_cardinality_numeric then
    { base with kept := false, removal_reason := some "high_cardinality" }
  else if c ∈ catCols ∧ base.cardinality ≥ cfg.max_cardinality_categorical then
    { base with kept := false, removal_reason := some "high_cardinality" }
  else if c ∈ numCols ∧ base.variance ≠ VarVal.noneV then
    match base.variance with
    | VarVal.val v =>
      if v ≤ cfg.min_variance then
        { base with kept := false, removal_reason := some "zero_variance" }
      else base
    | _ => base
  else base

/-- Auto-detected numeric columns (select_dtypes on int64/float64). -/
def autoNumCols (df : FDF) : List String :=
  df.data.filterMap (fun p => match p.2 with | FCol.num _ => some p.1 | _ => none)

/-- Auto-detected categorical columns (select_dtypes on object/category). -/
def autoCatCols (df : FDF) : List String :=
  df.data.filterMap (fun p => match p.2 with | FCol.cat _ => some p.1 | _ => none)

/-- Drop the target from a candidate list when a target is given
(the `if target_col:` truthiness guard again). -/
def dropTarget (cols : List String) (tgt : Option String) : List String :=
  match tgt with
  | some t => if t = "" then cols else cols.filter (fun c => decide (c ≠ t))
  | none => cols

/-- The numerical candidate columns FeatureFilter.fit ends up examining. -/
def effNumColsF (df : FDF) (numCols0 : Option (List String)) (tgt : Option String) :
    List String :=
  dropTarget (numCols0.getD (autoNumCols df)) tgt

/-- The categorical candidate columns FeatureFilter.fit ends up examining. -/
def effCatColsF (df : FDF) (catCols0 : Option (List String)) (tgt : Option String) :
    List String :=
  dropTarget (catCols0.getD (autoCatCols df)) tgt

/-- The ordered-rule reading of the removal reasons from the spec: the
high-missingness rule, then the cardinality rule (numeric or categorical
cap, whichever applies), then the zero-variance rule; the first applicable
rule is definitive. -/
def reasonSpec (cfg : FeatureFilterConfig) (df : FDF) (numCols catCols : List String)
    (c : String) : Option String :=
  let x := fcolOf df c
  if (isnaCount x : ℚ) / (df.nrows : ℚ) > cfg.max_missing_rate then some "high_missingness"
  else if (c ∈ numCols ∧ nuniqueF x ≥ cfg.max_cardinality_numeric) ∨
      (c ∈ catCols ∧ nuniqueF x ≥ cfg.max_cardinality_categorical) then some "high_cardinality"
  else if decide (c ∈ numCols) && isNumDtype x &&
      (match varOf x with | VarVal.val v => decide (v ≤ cfg.min_variance) | _ => false) then
    some "zero_variance"
  else none

/-- The fitted state of a FeatureFilter instance. -/
structure FilterState where
  config : FeatureFilterConfig
  filter_report : List (String × ColReport) := []
  removed_all : List String := []
  kept_features : List String := []

/-- A freshly constructed FeatureFilter. -/
def initFilter (cfg : FeatureFilterConfig) : FilterState :=
  { config := cfg }

/-- FeatureFilter.fit: resolve the column lists, exclude the target,
examine every candidate column and record kept/removed with a reason. -/
def filterFit (cfg : FeatureFilterConfig) (df : FDF)
    (numCols0 catCols0 : Option (List String)) (tgt : Option String) : FilterState :=
  let numCols := effNumColsF df numCols0 tgt
  let catCols := effCatColsF df catCols0 tgt
  let allF := numCols ++ catCols
  let report := writeAll [] (allF.map (fun c => (c, mkReport cfg df numCols catCols c)))
  { config := cfg
    filter_report := report
    removed_all := allF.filter (fun c => ((alookup report c).map (·.kept)).getD true == false)
    kept_features := allF.filter (fun c => ((alookup report c).map (·.kept)).getD false == true) }

/-- The ValueError FeatureFilter.transform raises when unfitted. -/
def filterNotFittedMsg : String := "Filter not fitted. Call fit() first."

/-- Projection of a mixed dataframe onto a list of column names. -/
def projectF (df : FDF) (cols : List String) : FDF :=
  { nrows := df.nrows, data := cols.map (fun c => (c, fcolOf df c)) }

/-- FeatureFilter.transform: guarded by emptiness of kept_features, then
projects onto the kept features present in the table plus the columns the
fit never examined. -/
def filterTransform (st : FilterState) (df : FDF) : Except String FDF :=
  if st.kept_features = [] then Except.error filterNotFittedMsg
  else
    let colsToKeep := st.kept_features.filter (fun c => (df.data.map (·.1)).contains c)
    let other := (df.data.map (·.1)).filter (fun c => (alookup st.filter_report c).isNone)
    Except.ok (projectF df (colsToKeep ++ other))

/-! ## FeatureSelector (feature_selection.py) -/

/-- FeatureSelectionConfig restricted to the fields _select_features and
transform read. -/
structure FeatureSelectionConfig where
  top_k : Option Nat := none
  threshold : Option ℚ := none
  max_correlation : ℚ := 95 / 100

/-- Mean used for score aggregation. -/
def aggregatedScores (featureScores : List (String × List (String × ℚ)))
    (featureNames : List String) : List (String × ℚ) :=
  featureNames.filterMap (fun f =>
    let ss := (featureScores.map (fun m => alookup m.2 f)).reduceOption
    if ss.isEmpty then none else some (f, meanQ ss))

/-- The aggregated scores sorted descending; Python's sorted is stable, as
is insertion sort with this comparison. -/
def sortedFeatures (featureScores : List (String × List (String × ℚ)))
    (featureNames : List String) : List (String × ℚ) :=
  List.insertionSort (fun a b => b.2 ≤ a.2) (aggregatedScores featureScores featureNames)

/-- The greedy selection loop of _select_features: stop when top_k is
reached or the score drops below the threshold; skip (and record as
redundant) a candidate whose absolute correlation with some already
selected feature exceeds max_correlation, checking only when something is
already selected and max_correlation < 1. -/
def selectLoop (cfg : FeatureSelectionConfig) (corr : String → String → ℚ) :
    List (String × ℚ) → List String → List String → List String × List String
  | [], sel, red => (sel, red)
  | (f, sc) :: rest, sel, red =>
    if (match cfg.top_k with | some k => decide (sel.length ≥ k) | none => false) then (sel, red)
    else if (match cfg.threshold with | some t => decide (sc < t) | none => false) then (sel, red)
    else
      if sel ≠ [] ∧ cfg.max_correlation < 1 then
        match sel.find? (fun s => decide (cfg.max_correlation < |corr f s|)) with
        | some _ => selectLoop cfg corr rest sel (red ++ [f])
        | none => selectLoop cfg corr rest (sel ++ [f]) red
      else selectLoop cfg corr rest (sel ++ [f]) red

/-- FeatureSelector._select_features: aggregate, sort, then run the greedy
loop; returns (selected_features, removed_redundant). -/
def select_features (cfg : FeatureSelectionConfig) (corr : String → String → ℚ)
    (featureScores : List (String × List (String × ℚ))) (featureNames : List String) :
    List String × List String :=
  selectLoop cfg corr (sortedFeatures featureScores featureNames) [] []

/-- The selection-relevant state of a fitted FeatureSelector. -/
structure SelState where
  config : FeatureSelectionConfig
  selected_features : List String := []
  removed_redundant : List String := []

/-- A freshly constructed FeatureSelector. -/
def initSel (cfg : FeatureSelectionConfig) : SelState :=
  { config := cfg }

/-- FeatureSelector.fit restricted to its selection outcome: the per-method
scores and the pairwise correlation function on the numeric encoding are
the black-box inputs. -/
def selFit (cfg : FeatureSelectionConfig) (corr : String → String → ℚ)
    (featureScores : List (String × List (String × ℚ))) (featureNames : List String) :
    SelState :=
  let r := select_features cfg corr featureScores featureNames
  { config := cfg, selected_features := r.1, removed_redundant := r.2 }

/-- The ValueError FeatureSelector.transform raises when nothing is
selected. -/
def selNotFittedMsg : String := "No features selected. Call fit() first."

/-- FeatureSelector.transform: guarded by emptiness of selected_features,
then projects onto the selected features present in the table. -/
def selTransform (st : SelState) (df : FDF) : Except String FDF :=
  if st.selected_features = [] then Except.error selNotFittedMsg
  else
    Except.ok
      (projectF df (st.selected_features.filter (fun c => (df.data.map (·.1)).contains c)))

/-! ### Statistical score normalization (_statistical_scores) -/

/-- A double as seen by np.nan_to_num: finite, NaN or an infinity. -/
inductive FloatVal where
  | finite (q : ℚ)
  | nan
  | posinf
  | neginf
deriving DecidableEq

/-- The largest finite double, exactly. -/
def maxFloat : ℚ := (2 ^ 53 - 1) * 2 ^ 971

/-- np.nan_to_num(x, nan=0.0): NaN becomes 0, but the infinities keep
their default replacement by the extreme finite doubles. -/
def nanToNum : FloatVal → ℚ
  | FloatVal.finite q => q
  | FloatVal.nan => 0
  | FloatVal.posinf => maxFloat
  | FloatVal.neginf => -maxFloat

/-- FeatureSelector._statistical_scores after the black-box F-test: the
raw score vector passed through np.nan_to_num(scores, nan=0.0). -/
def statistical_scores (raw : List FloatVal) : List ℚ :=
  raw.map nanToNum

/-! ## Decidability and concrete example inputs -/

instance {ε α : Type} [DecidableEq ε] [DecidableEq α] : DecidableEq (Except ε α)
  | Except.ok a, Except.ok b => decidable_of_iff (a = b) (by simp)
  | Except.error a, Except.error b => decidable_of_iff (a = b) (by simp)
  | Except.ok _, Except.error _ => isFalse (by simp)
  | Except.error _, Except.ok _ => isFalse (by simp)

/-- A configuration with a single bin count of 2 (CLI --bins 2). -/
def exBinCfg : FeatureTransformConfig :=
  { capLo := 1, capHi := 99, n_bins_options := [2], min_category_freq := 1 / 100 }

/-- A four-row fitting column covering the range 0..3. -/
def exBinDF : NumDF := [("x", [some 0, some 1, some 2, some 3])]

/-- New data whose value 100 lies above every fitted bin edge. -/
def exBinDF2 : NumDF := [("x", [some 100])]

/-- Configuration with min_category_freq 0.3 and no numeric work. -/
def exCatCfg : FeatureTransformConfig :=
  { capLo := 1, capHi := 99, n_bins_options := [], min_category_freq := 3 / 10 }

/-- A categorical column with three distinct values of distinct counts,
two of them rare at the 0.3 threshold, and one missing cell. -/
def exCatDF : CatDF :=
  [("c", [some "a", some "a", some "a", some "a", some "b", some "b", some "c", none])]

/-- Numeric column used for the capping counterexample: four values and a
missing cell; no binned variants requested. -/
def exCapCfg : FeatureTransformConfig :=
  { capLo := 1, capHi := 99, n_bins_options := [], min_category_freq := 1 / 100 }

/-- The capping counterexample fitting frame. -/
def exCapDF : NumDF := [("x", [some 0, some 1, some 2, some 3, none])]

/-- A two-row frame with one well-behaved numeric column. -/
def exFilterDF : FDF := { nrows := 2, data := [("w", FCol.num [some 1, some 2])] }

/-! ## Association-list lemmas -/

theorem alookup_upsert {α : Type} (l : List (String × α)) (k : String) (v : α)
    (k' : String) :
    alookup (upsert l k v) k' = if k' = k then some v else alookup l k' := by
  induction l with
  | nil =>
    show (if k = k' then some v else none) = if k' = k then some v else none
    by_cases h : k' = k
    · rw [if_pos h.symm, if_pos h]
    · rw [if_neg (fun hk : k = k' => h hk.symm), if_neg h]
  | cons p ps ih =>
    by_cases hp : p.1 = k
    · by_cases h : k' = k
      · rw [upsert, if_pos hp, alookup, if_pos h.symm, if_pos h]
      · rw [upsert, if_pos hp, alookup, if_neg (fun hk : k = k' => h hk.symm), if_neg h,
          alookup, if_neg (fun hk : p.1 = k' => h (hk.symm.trans hp))]
    · by_cases h : k' = k
      · rw [upsert, if_neg hp, alookup, if_neg (fun hk : p.1 = k' => hp (hk.trans h)), ih,
          if_pos h, if_pos h]
      · rw [upsert, if_neg hp, alookup, ih, if_neg h, if_neg h, alookup]

theorem alookup_writeAll {α : Type} (ws : List (String × α)) :
    ∀ (l : List (String × α)) (k : String),
      alookup (writeAll l ws) k = (lastW ws k).or (alookup l k) := by
  induction ws with
  | nil => intro l k; rfl
  | cons w ws ih =>
    intro l k
    show alookup (writeAll (upsert l w.1 w.2) ws) k = _
    rw [ih, lastW, Option.or_assoc, alookup_upsert]
    congr 1
    by_cases h : w.1 = k
    · rw [if_pos h.symm, if_pos h]; rfl
    · rw [if_neg (fun hk : k = w.1 => h hk.symm), if_neg h, Option.none_or]

theorem lastW_append {α : Type} (ws1 ws2 : List (String × α)) (k : String) :
    lastW (ws1 ++ ws2) k = (lastW ws2 k).or (lastW ws1 k) := by
  induction ws1 with
  | nil =>
    show lastW ws2 k = (lastW ws2 k).or none
    cases lastW ws2 k <;> rfl
  | cons w ws ih =>
    show (lastW (ws ++ ws2) k).or _ = _
    rw [ih, Option.or_assoc]
    rfl

theorem lastW_eq_none {α : Type} (ws : List (String × α)) (k : String)
    (h : ∀ w ∈ ws, w.1 ≠ k) : lastW ws k = none := by
  induction ws with
  | nil => rfl
  | cons w ws ih =>
    rw [lastW, ih (fun w hw => h w (List.mem_cons_of_mem _ hw))]
    simp [h w (List.mem_cons_self _ _), Option.or]

theorem lastW_map_self {α : Type} (f : String → α) (cs : List String) (k : String)
    (h : k ∈ cs) : lastW (cs.map (fun c => (c, f c))) k = some (f k) := by
  induction cs with
  | nil => cases h
  | cons c cs ih =>
    show lastW ((c, f c) :: cs.map (fun c => (c, f c))) k = _
    rw [lastW]
    by_cases hk : k ∈ cs
    · rw [ih hk]; rfl
    · rcases List.mem_cons.1 h with hc | hc
      · subst hc
        rw [lastW_eq_none]
        · simp [Option.or]
        · intro w hw
          rcases List.mem_map.1 hw with ⟨c', hc', rfl⟩
          simp only [ne_eq]
          intro hck
          exact hk (hck ▸ hc')
      · exact absurd hc hk

theorem lastW_map_det {α : Type} (f : String → α) (cs : List String) (k : String)
    (v : α) (h : lastW (cs.map (fun c => (c, f c))) k = some v) : v = f k := by
  induction cs with
  | nil => cases h
  | cons c cs ih =>
    rw [List.map_cons, lastW] at h
    rcases hws : lastW (cs.map (fun c => (c, f c))) k with _ | v'
    · rw [hws, Option.none_or] at h
      by_cases hc : c = k
      · subst hc
        simp at h
        exact h.symm
      · simp [hc] at h
    · rw [hws] at h
      cases h
      exact ih hws

theorem lastW_flatMap_unique {α : Type} (g : String → List (String × α))
    (cs : List String) (k : String) (c0 : String) (v : α) (hc : c0 ∈ cs)
    (hin : lastW (g c0) k = some v)
    (hothers : ∀ c ∈ cs, c ≠ c0 → ∀ w ∈ g c, w.1 ≠ k) :
    lastW (cs.flatMap g) k = some v := by
  induction cs with
  | nil => cases hc
  | cons c cs ih =>
    rw [List.flatMap_cons, lastW_append]
    by_cases hmem : c0 ∈ cs
    · rw [ih hmem (fun c hc' => hothers c (List.mem_cons_of_mem _ hc'))]; rfl
    · have hnone : lastW (cs.flatMap g) k = none := by
        apply lastW_eq_none
        intro w hw
        rcases List.mem_flatMap.1 hw with ⟨c', hc', hw'⟩
        have hne : c' ≠ c0 := fun h => hmem (h ▸ hc')
        exact hothers c' (List.mem_cons_of_mem _ hc') hne w hw'
      rw [hnone, Option.none_or]
      rcases List.mem_cons.1 hc with hcc | hcc
      · subst hcc
        exact hin
      · exact absurd hcc hmem

theorem lastW_flatMap_none {α : Type} (g : String → List (String × α))
    (cs : List String) (k : String)
    (h : ∀ c ∈ cs, ∀ w ∈ g c, w.1 ≠ k) : lastW (cs.flatMap g) k = none := by
  apply lastW_eq_none
  intro w hw
  rcases List.mem_flatMap.1 hw with ⟨c, hc, hw'⟩
  exact h c hc w hw'

/-! ## Binning lemmas -/

theorem linEdges_length (mn step : ℚ) (n : Nat) : (linEdges mn step n).length = n + 1 := by
  induction n generalizing mn with
  | zero => rfl
  | succ n ih => simp [linEdges, ih]

theorem linEdges_head (mn step : ℚ) (n : Nat) :
    ∃ rest, linEdges mn step n = mn :: rest := by
  cases n with
  | zero => exact ⟨[], rfl⟩
  | succ n => exact ⟨linEdges (mn + step) step n, rfl⟩

theorem linEdges_chain (step : ℚ) (hstep : 0 < step) (n : Nat) :
    ∀ mn, List.Chain' (· < ·) (linEdges mn step n) := by
  induction n with
  | zero => intro mn; simp [linEdges]
  | succ n ih =>
    intro mn
    rw [linEdges]
    obtain ⟨rest, hrest⟩ := linEdges_head (mn + step) step n
    rw [hrest]
    refine List.chain'_cons.2 ⟨by linarith, ?_⟩
    rw [← hrest]
    exact ih (mn + step)

theorem foldl_min_le {xs : List ℚ} : ∀ (acc : ℚ),
    xs.foldl min acc ≤ acc ∧ ∀ v ∈ xs, xs.foldl min acc ≤ v := by
  induction xs with
  | nil => intro acc; exact ⟨le_refl _, by intro v hv; cases hv⟩
  | cons y ys ih =>
    intro acc
    refine ⟨le_trans (ih (min acc y)).1 (min_le_left _ _), ?_⟩
    intro v hv
    rcases List.mem_cons.1 hv with rfl | hv'
    · exact le_trans (ih (min acc v)).1 (min_le_right _ _)
    · exact (ih (min acc y)).2 v hv'

theorem listMin_le (xs : List ℚ) (v : ℚ) (hv : v ∈ xs) : listMin xs ≤ v := by
  cases xs with
  | nil => cases hv
  | cons x rest =>
    rcases List.mem_cons.1 hv with rfl | hv'
    · exact (foldl_min_le v).1
    · exact (foldl_min_le x).2 v hv'

theorem foldl_max_ge {xs : List ℚ} : ∀ (acc : ℚ),
    acc ≤ xs.foldl max acc ∧ ∀ v ∈ xs, v ≤ xs.foldl max acc := by
  induction xs with
  | nil => intro acc; exact ⟨le_refl _, by intro v hv; cases hv⟩
  | cons y ys ih =>
    intro acc
    refine ⟨le_trans (le_max_left _ _) (ih (max acc y)).1, ?_⟩
    intro v hv
    rcases List.mem_cons.1 hv with rfl | hv'
    · exact le_trans (le_max_right _ _) (ih (max acc v)).1
    · exact (ih (max acc y)).2 v hv'

theorem le_listMax (xs : List ℚ) (v : ℚ) (hv : v ∈ xs) : v ≤ listMax xs := by
  cases xs with
  | nil => cases hv
  | cons x rest =>
    rcases List.mem_cons.1 hv with rfl | hv'
    · exact (foldl_max_ge v).1
    · exact (foldl_max_ge x).2 v hv'

theorem listMin_le_listMax (xs : List ℚ) (hne : xs ≠ []) : listMin xs ≤ listMax xs := by
  cases xs with
  | nil => exact absurd rfl hne
  | cons x rest =>
    exact le_trans (listMin_le _ x (List.mem_cons_self _ _))
      (le_listMax _ x (List.mem_cons_self _ _))

theorem fitEdges_chain (mn mx : ℚ) (n : Nat) (hn : n ≠ 0) (hmn : mn ≤ mx) :
    List.Chain' (· < ·) (fitEdges mn mx n) := by
  have hn' : (0 : ℚ) < (n : ℚ) := by
    exact_mod_cast Nat.pos_of_ne_zero hn
  unfold fitEdges
  by_cases heq : mn = mx
  · rw [if_pos heq]
    apply linEdges_chain
    apply div_pos _ hn'
    have p1 : (0 : ℚ) < (if mn = 0 then 1 / 1000 else |mn| / 1000) := by
      split
      · norm_num
      · rename_i h0; exact div_pos (abs_pos.2 h0) (by norm_num)
    have p2 : (0 : ℚ) < (if mx = 0 then 1 / 1000 else |mx| / 1000) := by
      split
      · norm_num
      · rename_i h0; exact div_pos (abs_pos.2 h0) (by norm_num)
    linarith [heq ▸ p1, p2]
  · rw [if_neg heq]
    have hlt : mn < mx := lt_of_le_of_ne hmn heq
    have hstep : (0 : ℚ) < (mx - mn) / n := div_pos (by linarith) hn'
    have hch := linEdges_chain _ hstep n mn
    obtain ⟨rest, hrest⟩ := linEdges_head mn ((mx - mn) / n) n
    rw [hrest]
    rw [hrest] at hch
    cases rest with
    | nil =>
      have h0 := linEdges_length mn ((mx - mn) / n) n
      rw [hrest] at h0
      have h1 : (1 : Nat) = n + 1 := by simpa using h0
      omega
    | cons e1 rest' =>
      rcases List.chain'_cons.1 hch with ⟨h01, hch'⟩
      have hadj : (0 : ℚ) < (mx - mn) / 1000 := div_pos (by linarith) (by norm_num)
      exact List.chain'_cons.2 ⟨by linarith, hch'⟩

theorem fitEdges_length (mn mx : ℚ) (n : Nat) : (fitEdges mn mx n).length = n + 1 := by
  unfold fitEdges
  by_cases heq : mn = mx
  · rw [if_pos heq, linEdges_length]
  · rw [if_neg heq]
    obtain ⟨rest, hrest⟩ := linEdges_head mn ((mx - mn) / n) n
    rw [hrest]
    have := linEdges_length mn ((mx - mn) / n) n
    rw [hrest] at this
    simpa using this

theorem fitEdges_head_lt (mn mx : ℚ) (n : Nat) (hmn : mn ≤ mx) (v : ℚ) (hv : mn ≤ v) :
    ∃ e0 rest, fitEdges mn mx n = e0 :: rest ∧ e0 < v := by
  unfold fitEdges
  by_cases heq : mn = mx
  · rw [if_pos heq]
    set p := (if mn = 0 then 1 / 1000 else |mn| / 1000) with hp
    have p1 : (0 : ℚ) < p := by
      rw [hp]; split
      · norm_num
      · rename_i h0; exact div_pos (abs_pos.2 h0) (by norm_num)
    obtain ⟨rest, hrest⟩ := linEdges_head (mn - p) _ n
    exact ⟨mn - p, rest, hrest, by linarith⟩
  · rw [if_neg heq]
    have hlt : mn < mx := lt_of_le_of_ne hmn heq
    obtain ⟨rest, hrest⟩ := linEdges_head mn ((mx - mn) / n) n
    rw [hrest]
    have hadj : (0 : ℚ) < (mx - mn) / 1000 := div_pos (by linarith) (by norm_num)
    exact ⟨mn - (mx - mn) / 1000, rest, rfl, by linarith⟩

theorem dedupC_of_chain : ∀ (edges : List ℚ), List.Chain' (· < ·) edges →
    dedupC edges = edges
  | [], _ => rfl
  | [_], _ => rfl
  | e0 :: e1 :: rest, h => by
    rw [dedupC, if_neg (ne_of_lt (List.chain'_cons.1 h).1),
      dedupC_of_chain (e1 :: rest) (List.chain'_cons.1 h).2]

theorem cutSearch_none_of_le : ∀ (edges : List ℚ) (v : ℚ), (∀ e ∈ edges, v ≤ e) →
    cutSearch edges v = none
  | [], _, _ => rfl
  | [_], _, _ => rfl
  | e0 :: e1 :: rest, v, h => by
    rw [cutSearch,
      if_neg (fun hc => absurd hc.1 (not_lt.2 (h e0 (List.mem_cons_self _ _)))),
      cutSearch_none_of_le (e1 :: rest) v (fun e he => h e (List.mem_cons_of_mem _ he))]
    rfl

theorem cutSearch_none_of_gt : ∀ (edges : List ℚ) (v : ℚ), (∀ e ∈ edges, e < v) →
    cutSearch edges v = none
  | [], _, _ => rfl
  | [_], _, _ => rfl
  | e0 :: e1 :: rest, v, h => by
    rw [cutSearch,
      if_neg (fun hc => absurd hc.2
        (not_le.2 (h e1 (List.mem_cons_of_mem _ (List.mem_cons_self _ _))))),
      cutSearch_none_of_gt (e1 :: rest) v (fun e he => h e (List.mem_cons_of_mem _ he))]
    rfl

theorem cutSearch_some : ∀ (e0 : ℚ) (rest : List ℚ) (v : ℚ), e0 < v →
    v ≤ (e0 :: rest).getLastD 0 → ∃ i, cutSearch (e0 :: rest) v = some i
  | e0, [], v, h1, h2 => by
    simp only [List.getLastD_cons, List.getLastD_nil] at h2
    exact absurd h2 (not_le.2 h1)
  | e0, e1 :: rest, v, h1, h2 => by
    by_cases hv : v ≤ e1
    · exact ⟨0, by rw [cutSearch, if_pos ⟨h1, hv⟩]⟩
    · obtain ⟨i, hi⟩ := cutSearch_some e1 rest v (by push_neg at hv; exact hv)
        (by
          simp only [List.getLastD_cons] at h2 ⊢
          cases rest with
          | nil =>
            simp only [List.getLastD_nil] at h2 ⊢
            exact h2
          | cons e2 rest' => simpa using h2)
      exact ⟨i + 1, by rw [cutSearch, if_neg (fun hc => hv hc.2), hi]; rfl⟩

theorem chain_le_getLastD : ∀ (e0 : ℚ) (rest : List ℚ),
    List.Chain' (· < ·) (e0 :: rest) → ∀ x ∈ e0 :: rest, x ≤ (e0 :: rest).getLastD 0 := by
  intro e0 rest
  induction rest generalizing e0 with
  | nil =>
    intro _ x hx
    rcases List.mem_cons.1 hx with rfl | hx'
    · rw [List.getLastD_cons, List.getLastD_nil]
    · cases hx'
  | cons e1 rest' ih =>
    intro hch x hx
    rcases List.chain'_cons.1 hch with ⟨h01, hch'⟩
    rcases List.mem_cons.1 hx with rfl | hx'
    · calc x ≤ e1 := le_of_lt h01
        _ ≤ (e1 :: rest').getLastD 0 := ih e1 hch' e1 (List.mem_cons_self _ _)
        _ = (x :: e1 :: rest').getLastD 0 := by simp [List.getLastD_cons]
    · calc x ≤ (e1 :: rest').getLastD 0 := ih e1 hch' x hx'
        _ = (e0 :: e1 :: rest').getLastD 0 := by simp [List.getLastD_cons]

theorem chain_head_lt : ∀ (e0 : ℚ) (rest : List ℚ),
    List.Chain' (· < ·) (e0 :: rest) → ∀ x ∈ rest, e0 < x := by
  intro e0 rest hch x hx
  have hp := (List.chain'_iff_pairwise).1 hch
  exact (List.pairwise_cons.1 hp).1 x hx

theorem cutIdx_false_eq_search : ∀ (edges : List ℚ) (v : ℚ),
    cutIdx edges false v = cutSearch edges v
  | [], _ => rfl
  | [_], _ => rfl
  | _ :: _ :: _, _ => rfl

theorem cutIdx_true_eq_false (e0 : ℚ) (rest : List ℚ) (v : ℚ) (h : e0 < v) :
    cutIdx (e0 :: rest) true v = cutIdx (e0 :: rest) false v := by
  cases rest with
  | nil => rfl
  | cons e1 rest' =>
    by_cases hv : v ≤ e1
    · rw [cutIdx, cutIdx, if_pos ⟨le_of_lt h, hv⟩, if_pos ⟨h, hv⟩]
    · rw [cutIdx, cutIdx, if_neg (fun hc => hv hc.2), if_neg (fun hc => hv hc.2)]

theorem pdCutFit_inv (xs : NumCol) (n : Nat) (labels : NumCol) (edges : List ℚ)
    (h : pdCutFit xs n = some (labels, edges)) :
    n ≠ 0 ∧ dropna xs ≠ [] ∧
      edges = fitEdges (listMin (dropna xs)) (listMax (dropna xs)) n ∧
      labels = xs.map (fun o => o.bind (fun v => (cutIdx edges false v).map (fun i => (i : ℚ)))) := by
  unfold pdCutFit at h
  by_cases hn : n = 0
  · rw [if_pos hn] at h; cases h
  · rw [if_neg hn] at h
    by_cases he : (dropna xs).isEmpty
    · rw [if_pos he] at h; cases h
    · rw [if_neg he] at h
      injection h with h'
      have h1 := congrArg Prod.fst h'
      have h2 := congrArg Prod.snd h'
      simp only at h1 h2
      exact ⟨hn, fun hnil => he (by rw [hnil]; rfl), h2.symm, by rw [← h1, h2]⟩

theorem pdCutFit_replay (xs : NumCol) (n : Nat) (labels : NumCol) (edges : List ℚ)
    (h : pdCutFit xs n = some (labels, edges)) : pdCutEdgesL xs edges = labels := by
  obtain ⟨hn, hne, hedges, hlabels⟩ := pdCutFit_inv xs n labels edges h
  have hminmax := listMin_le_listMax _ hne
  have hchain : List.Chain' (· < ·) edges := hedges ▸ fitEdges_chain _ _ n hn hminmax
  rw [pdCutEdgesL, dedupC_of_chain edges hchain, hlabels]
  apply List.map_congr_left
  intro o ho
  cases o with
  | none => rfl
  | some v =>
    have hv : v ∈ dropna xs := List.mem_filterMap.2 ⟨some v, ho, rfl⟩
    obtain ⟨e0, rest, hfe, hlt⟩ :=
      fitEdges_head_lt (listMin (dropna xs)) (listMax (dropna xs)) n hminmax v
        (listMin_le _ v hv)
    rw [hedges, hfe]
    show (cutIdx (e0 :: rest) true v).map (fun i => (i : ℚ)) =
      (cutIdx (e0 :: rest) false v).map (fun i => (i : ℚ))
    rw [cutIdx_true_eq_false e0 rest v hlt]

/-! ## Percentile lemmas -/

theorem sorted_getD_le (s : List ℚ) (hs : List.Sorted (· ≤ ·) s) (i j : Nat) (d1 d2 : ℚ)
    (hij : i ≤ j) (hj : j < s.length) : s.getD i d1 ≤ s.getD j d2 := by
  have hi : i < s.length := lt_of_le_of_lt hij hj
  rw [List.getD_eq_getElem?_getD, List.getD_eq_getElem?_getD,
    List.getElem?_eq_getElem hi, List.getElem?_eq_getElem hj]
  simp only [Option.getD_some]
  rcases eq_or_lt_of_le hij with rfl | hlt
  · exact le_refl _
  · have := hs.rel_get_of_lt (show (⟨i, hi⟩ : Fin s.length) < ⟨j, hj⟩ from hlt)
    simpa [List.get_eq_getElem] using this

theorem interpAt_cast_floor (h : ℚ) (h0 : 0 ≤ h) :
    (((⌊h⌋).toNat : ℚ)) = (⌊h⌋ : ℚ) := by
  rw [← Int.toNat_of_nonneg (Int.floor_nonneg.2 h0)]
  push_cast
  rfl

theorem getD_oor (s : List ℚ) (i : Nat) (d : ℚ) (h : s.length ≤ i) : s.getD i d = d := by
  rw [List.getD_eq_getElem?_getD, List.getElem?_eq_none h]
  rfl

theorem interpAt_bounds (s : List ℚ) (hs : List.Sorted (· ≤ ·) s) (h : ℚ) (h0 : 0 ≤ h) :
    s.getD ((⌊h⌋).toNat) 0 ≤ interpAt s h ∧
      interpAt s h ≤ s.getD ((⌊h⌋).toNat + 1) (s.getD ((⌊h⌋).toNat) 0) := by
  have hlohi : s.getD ((⌊h⌋).toNat) 0 ≤ s.getD ((⌊h⌋).toNat + 1) (s.getD ((⌊h⌋).toNat) 0) := by
    by_cases hrange : (⌊h⌋).toNat + 1 < s.length
    · exact sorted_getD_le s hs _ _ 0 _ (Nat.le_succ _) hrange
    · rw [getD_oor s _ _ (Nat.le_of_not_lt hrange)]
  have hfr0 : 0 ≤ h - (((⌊h⌋).toNat : ℚ)) := by
    rw [interpAt_cast_floor h h0]
    linarith [Int.floor_le h]
  have hfr1 : h - (((⌊h⌋).toNat : ℚ)) ≤ 1 := by
    rw [interpAt_cast_floor h h0]
    linarith [Int.lt_floor_add_one h]
  constructor
  · show s.getD ((⌊h⌋).toNat) 0 ≤ s.getD ((⌊h⌋).toNat) 0 +
      (h - (((⌊h⌋).toNat : ℚ))) *
        (s.getD ((⌊h⌋).toNat + 1) (s.getD ((⌊h⌋).toNat) 0) - s.getD ((⌊h⌋).toNat) 0)
    nlinarith [mul_nonneg hfr0 (sub_nonneg.2 hlohi)]
  · show s.getD ((⌊h⌋).toNat) 0 +
      (h - (((⌊h⌋).toNat : ℚ))) *
        (s.getD ((⌊h⌋).toNat + 1) (s.getD ((⌊h⌋).toNat) 0) - s.getD ((⌊h⌋).toNat) 0) ≤
      s.getD ((⌊h⌋).toNat + 1) (s.getD ((⌊h⌋).toNat) 0)
    nlinarith [mul_le_mul_of_nonneg_right hfr1 (sub_nonneg.2 hlohi)]

theorem interpAt_mono (s : List ℚ) (hs : List.Sorted (· ≤ ·) s) (hne : s.length ≠ 0)
    (h1 h2 : ℚ) (h01 : 0 ≤ h1) (h12 : h1 ≤ h2) (hub : h2 ≤ (s.length : ℚ) - 1) :
    interpAt s h1 ≤ interpAt s h2 := by
  have h02 : 0 ≤ h2 := le_trans h01 h12
  have hi12 : (⌊h1⌋).toNat ≤ (⌊h2⌋).toNat := Int.toNat_le_toNat (Int.floor_le_floor h12)
  have hi2lt : (⌊h2⌋).toNat < s.length := by
    have hfl : (⌊h2⌋ : ℚ) ≤ (s.length : ℚ) - 1 := le_trans (Int.floor_le h2) hub
    have hc : ((⌊h2⌋).toNat : ℚ) ≤ (s.length : ℚ) - 1 := by
      rw [interpAt_cast_floor h2 h02]; exact hfl
    have hnat : ((⌊h2⌋).toNat : ℚ) < (s.length : ℚ) := by linarith
    exact_mod_cast hnat
  rcases Nat.eq_or_lt_of_le hi12 with heq | hlt
  · have hlohi : s.getD ((⌊h1⌋).toNat) 0 ≤
        s.getD ((⌊h1⌋).toNat + 1) (s.getD ((⌊h1⌋).toNat) 0) := by
      by_cases hrange : (⌊h1⌋).toNat + 1 < s.length
      · exact sorted_getD_le s hs _ _ 0 _ (Nat.le_succ _) hrange
      · rw [getD_oor s _ _ (Nat.le_of_not_lt hrange)]
    show (interpAt s h1 : ℚ) ≤ interpAt s h2
    unfold interpAt
    rw [← heq]
    show s.getD ((⌊h1⌋).toNat) 0 +
        (h1 - (((⌊h1⌋).toNat : ℚ))) *
          (s.getD ((⌊h1⌋).toNat + 1) (s.getD ((⌊h1⌋).toNat) 0) - s.getD ((⌊h1⌋).toNat) 0) ≤
      s.getD ((⌊h1⌋).toNat) 0 +
        (h2 - (((⌊h1⌋).toNat : ℚ))) *
          (s.getD ((⌊h1⌋).toNat + 1) (s.getD ((⌊h1⌋).toNat) 0) - s.getD ((⌊h1⌋).toNat) 0)
    nlinarith [mul_le_mul_of_nonneg_right h12 (sub_nonneg.2 hlohi)]
  · have hb1 := interpAt_bounds s hs h1 h01
    have hb2 := interpAt_bounds s hs h2 h02
    calc interpAt s h1
        ≤ s.getD ((⌊h1⌋).toNat + 1) (s.getD ((⌊h1⌋).toNat) 0) := hb1.2
      _ ≤ s.getD ((⌊h2⌋).toNat) 0 := sorted_getD_le s hs _ _ _ 0 hlt hi2lt
      _ ≤ interpAt s h2 := hb2.1

theorem percentile_mono (xs : List ℚ) (hne : xs ≠ []) (q1 q2 : ℚ) (hq0 : 0 ≤ q1)
    (hq12 : q1 ≤ q2) (hq100 : q2 ≤ 100) : percentile xs q1 ≤ percentile xs q2 := by
  unfold percentile
  have hsorted := List.sorted_insertionSort (· ≤ ·) xs
  have hlen : (List.insertionSort (· ≤ ·) xs).length = xs.length :=
    (List.perm_insertionSort (· ≤ ·) xs).length_eq
  have hne' : (List.insertionSort (· ≤ ·) xs).length ≠ 0 := by
    rw [hlen]
    exact fun h => hne (List.eq_nil_of_length_eq_zero h)
  rw [if_neg hne', if_neg hne']
  set L : ℚ := ((List.insertionSort (· ≤ ·) xs).length : ℚ) with hL
  have hL1 : 1 ≤ L := by
    rw [hL]
    exact_mod_cast Nat.pos_of_ne_zero hne'
  apply interpAt_mono _ hsorted hne'
  · apply div_nonneg _ (by norm_num)
    exact mul_nonneg hq0 (by linarith)
  · have hmul := mul_le_mul_of_nonneg_right hq12 (show (0:ℚ) ≤ L - 1 by linarith)
    linarith
  · rw [div_le_iff₀ (by norm_num : (0:ℚ) < 100)]
    nlinarith

theorem clipQ_mem (v lo hi : ℚ) (h : lo ≤ hi) : lo ≤ clipQ v lo hi ∧ clipQ v lo hi ≤ hi := by
  unfold clipQ
  constructor
  · exact le_min (le_max_right v lo) h
  · exact min_le_right _ _

/-! ## State threading lemmas -/

theorem setTarget_config (s : FEState) (tgt : Option String) :
    (setTarget s tgt).config = s.config := by
  cases tgt with
  | none => rfl
  | some t => rw [setTarget]; split <;> rfl

theorem setTarget_stats (s : FEState) (tgt : Option String) :
    (setTarget s tgt).transform_stats = s.transform_stats := by
  cases tgt with
  | none => rfl
  | some t => rw [setTarget]; split <;> rfl

theorem setTarget_mapping (s : FEState) (tgt : Option String) :
    (setTarget s tgt).feature_mapping = s.feature_mapping := by
  cases tgt with
  | none => rfl
  | some t => rw [setTarget]; split <;> rfl

theorem contains_iff_mem (l : List String) (c : String) : l.contains c = true ↔ c ∈ l :=
  List.elem_iff

/-! ## Characterization of the numerical fit -/

theorem fitN_state_mapping (s0 : FEState) (df : NumDF) (cols : List String)
    (tgt : Option String) :
    (fit_transform_numerical s0 df cols tgt).1.feature_mapping =
      writeAll
        (writeAll s0.feature_mapping ((binaryColsN df cols).map (fun c => (c, [c]))))
        ((colsToTransformN df cols (setTarget s0 tgt).target_col).map
          (fun c => (c, (numDerive s0.config (colOf df c) c).map (·.1)))) := by
  show writeAll (writeAll (setTarget s0 tgt).feature_mapping _)
      (((colsToTransformN df cols (setTarget s0 tgt).target_col).map _).map _) = _
  rw [List.map_map, setTarget_mapping, setTarget_config]
  rfl

theorem fitN_state_stats (s0 : FEState) (df : NumDF) (cols : List String)
    (tgt : Option String) :
    (fit_transform_numerical s0 df cols tgt).1.transform_stats =
      writeAll
        (writeAll s0.transform_stats
          ((binaryColsN df cols).map
            (fun c => (c, TStat.binaryNum (uniquesFO (dropna (colOf df c)))))))
        ((colsToTransformN df cols (setTarget s0 tgt).target_col).flatMap
          (fun c => (numDerive s0.config (colOf df c) c).map (fun d => (d.1, d.2.2)))) := by
  show writeAll (writeAll (setTarget s0 tgt).transform_stats _)
      (((colsToTransformN df cols (setTarget s0 tgt).target_col).map _).flatMap _) = _
  rw [List.flatMap_map, setTarget_stats, setTarget_config]

theorem fitN_out (s0 : FEState) (df : NumDF) (cols : List String) (tgt : Option String) :
    (fit_transform_numerical s0 df cols tgt).2 =
      writeAll df
        ((colsToTransformN df cols (setTarget s0 tgt).target_col).flatMap
          (fun c => (numDerive s0.config (colOf df c) c).map (fun d => (d.1, d.2.1)))) := by
  show writeAll df
      (((colsToTransformN df cols (setTarget s0 tgt).target_col).map _).flatMap _) = _
  rw [List.flatMap_map, setTarget_config]

theorem mem_colsToTransformN (df : NumDF) (cols : List String) (eff : Option String)
    (c : String) :
    c ∈ colsToTransformN df cols eff ↔
      c ∈ cols ∧ eff ≠ some c ∧ c ∉ binaryColsN df cols := by
  unfold colsToTransformN
  rw [List.mem_filter]
  constructor
  · rintro ⟨hc, hb⟩
    rw [Bool.and_eq_true, decide_eq_true_eq, Bool.not_eq_true'] at hb
    refine ⟨hc, hb.1, fun hmem => ?_⟩
    have := (contains_iff_mem (binaryColsN df cols) c).2 hmem
    rw [this] at hb
    exact Bool.noConfusion hb.2
  · rintro ⟨hc, heff, hbin⟩
    refine ⟨hc, ?_⟩
    rw [Bool.and_eq_true, decide_eq_true_eq, Bool.not_eq_true']
    refine ⟨heff, ?_⟩
    by_cases hb : (binaryColsN df cols).contains c
    · exact absurd ((contains_iff_mem _ _).1 hb) hbin
    · exact Bool.not_eq_true _ ▸ hb

theorem binary_not_colsT (df : NumDF) (cols : List String) (eff : Option String)
    (c : String) (hb : c ∈ binaryColsN df cols) : c ∉ colsToTransformN df cols eff := by
  intro hmem
  exact ((mem_colsToTransformN df cols eff c).1 hmem).2.2 hb

theorem fitN_mapping_binary (s0 : FEState) (df : NumDF) (cols : List String)
    (tgt : Option String) (c : String) (hb : c ∈ binaryColsN df cols) :
    alookup (fit_transform_numerical s0 df cols tgt).1.feature_mapping c = some [c] := by
  rw [fitN_state_mapping, alookup_writeAll, alookup_writeAll]
  rw [lastW_eq_none _ c (by
    intro w hw
    rcases List.mem_map.1 hw with ⟨c', hc', rfl⟩
    intro hcc
    have hcc' : c' = c := hcc
    exact binary_not_colsT df cols _ c hb (hcc' ▸ hc')), Option.none_or]
  rw [lastW_map_self (fun x => [x]) _ c hb]
  rfl

theorem fitN_mapping_colsT (s0 : FEState) (df : NumDF) (cols : List String)
    (tgt : Option String) (c : String)
    (hc : c ∈ colsToTransformN df cols (setTarget s0 tgt).target_col) :
    alookup (fit_transform_numerical s0 df cols tgt).1.feature_mapping c =
      some ((numDerive s0.config (colOf df c) c).map (·.1)) := by
  rw [fitN_state_mapping, alookup_writeAll]
  rw [lastW_map_self (fun c => (numDerive s0.config (colOf df c) c).map (·.1)) _ c hc]
  rfl

theorem filterMap_map_sublist {α β γ : Type} (l : List α) (f : α → Option β) (g : β → γ)
    (h : α → γ) (hfg : ∀ a b, f a = some b → g b = h a) :
    ((l.filterMap f).map g).Sublist (l.map h) := by
  induction l with
  | nil => exact List.Sublist.refl _
  | cons a l' ih =>
    rcases hfa : f a with _ | b
    · rw [List.filterMap_cons_none hfa, List.map_cons]
      exact List.Sublist.cons _ ih
    · rw [List.filterMap_cons_some hfa, List.map_cons, List.map_cons, hfg a b hfa]
      exact List.Sublist.cons₂ _ ih

theorem numDerive_keys_sublist (cfg : FeatureTransformConfig) (xs : NumCol) (c : String) :
    ((numDerive cfg xs c).map (·.1)).Sublist (derivedNamesN cfg c) := by
  unfold numDerive derivedNamesN
  rw [List.map_cons]
  refine List.Sublist.cons₂ _ ?_
  apply filterMap_map_sublist
  intro n d hfd
  by_cases hlen : (dropna xs).length ≥ n
  · rw [if_pos hlen] at hfd
    rcases hcut : pdCutFit xs n with _ | p
    · rw [hcut] at hfd; cases hfd
    · rw [hcut] at hfd
      cases hfd
      rfl
  · rw [if_neg hlen] at hfd; cases hfd

theorem numDerive_key_mem (cfg : FeatureTransformConfig) (xs : NumCol) (c : String)
    (d : String × NumCol × TStat) (hd : d ∈ numDerive cfg xs c) :
    d.1 ∈ derivedNamesN cfg c :=
  (numDerive_keys_sublist cfg xs c).mem (List.mem_map.2 ⟨d, hd, rfl⟩)

theorem allNamesN_parts (cfg : FeatureTransformConfig) (cols : List String)
    (H2 : (allNamesN cfg cols).Nodup) :
    cols.Nodup ∧ (∀ c ∈ cols, (derivedNamesN cfg c).Nodup) ∧
      (∀ c ∈ cols, ∀ c' ∈ cols, c ≠ c' →
        List.Disjoint (derivedNamesN cfg c) (derivedNamesN cfg c')) ∧
      (∀ c ∈ cols, ∀ c' ∈ cols, ∀ t ∈ derivedNamesN cfg c', t ≠ c) := by
  unfold allNamesN at H2
  rw [List.nodup_append] at H2
  obtain ⟨hcols, hflat, hdisj⟩ := H2
  rw [List.nodup_flatMap] at hflat
  refine ⟨hcols, hflat.1, ?_, ?_⟩
  · intro c hc c' hc' hne
    exact hflat.2.forall (fun a b hab => List.Disjoint.symm hab) hc hc' hne
  · intro c hc c' hc' t ht hteq
    subst hteq
    exact (List.disjoint_right.1 hdisj) (List.mem_flatMap.2 ⟨c', hc', ht⟩) hc

theorem lastW_nodup_mem {α : Type} (ws : List (String × α))
    (hnd : (ws.map (·.1)).Nodup) (w : String × α) (hw : w ∈ ws) :
    lastW ws w.1 = some w.2 := by
  induction ws with
  | nil => cases hw
  | cons w' rest ih =>
    rw [List.map_cons, List.nodup_cons] at hnd
    rcases List.mem_cons.1 hw with rfl | hw'
    · rw [lastW, lastW_eq_none rest w.1 (by
        intro u hu hueq
        exact hnd.1 (hueq ▸ List.mem_map.2 ⟨u, hu, rfl⟩)), Option.none_or, if_pos rfl]
    · rw [lastW, ih hnd.2 hw']
      rfl

theorem fitN_stats_binary (s0 : FEState) (df : NumDF) (cols : List String)
    (tgt : Option String) (H2 : (allNamesN s0.config cols).Nodup) (c : String)
    (hb : c ∈ binaryColsN df cols) :
    alookup (fit_transform_numerical s0 df cols tgt).1.transform_stats c =
      some (TStat.binaryNum (uniquesFO (dropna (colOf df c)))) := by
  have hccols : c ∈ cols := List.mem_of_mem_filter hb
  obtain ⟨-, -, -, hnotc⟩ := allNamesN_parts s0.config cols H2
  rw [fitN_state_stats, alookup_writeAll, alookup_writeAll]
  rw [lastW_flatMap_none _ _ c (by
    intro c' hc' w hw
    have hc'cols : c' ∈ cols :=
      ((mem_colsToTransformN df cols _ c').1 hc').1
    rcases List.mem_map.1 hw with ⟨d, hd, rfl⟩
    exact hnotc c hccols c' hc'cols d.1 (numDerive_key_mem _ _ _ d hd)), Option.none_or]
  rw [lastW_map_self (fun c => TStat.binaryNum (uniquesFO (dropna (colOf df c)))) _ c hb]
  rfl

theorem fitN_stats_derived (s0 : FEState) (df : NumDF) (cols : List String)
    (tgt : Option String) (H2 : (allNamesN s0.config cols).Nodup) (c : String)
    (hc : c ∈ colsToTransformN df cols (setTarget s0 tgt).target_col)
    (d : String × NumCol × TStat) (hd : d ∈ numDerive s0.config (colOf df c) c) :
    alookup (fit_transform_numerical s0 df cols tgt).1.transform_stats d.1 =
      some d.2.2 := by
  have hccols : c ∈ cols := ((mem_colsToTransformN df cols _ c).1 hc).1
  obtain ⟨-, hnodup, hdisj, -⟩ := allNamesN_parts s0.config cols H2
  rw [fitN_state_stats, alookup_writeAll]
  rw [lastW_flatMap_unique _ _ d.1 c d.2.2 hc
    (by
      have hsub : (((numDerive s0.config (colOf df c) c).map
          (fun d => (d.1, d.2.2))).map (·.1)).Sublist (derivedNamesN s0.config c) := by
        rw [List.map_map]
        exact numDerive_keys_sublist s0.config (colOf df c) c
      exact lastW_nodup_mem _ (hsub.nodup (hnodup c hccols)) (d.1, d.2.2)
        (List.mem_map.2 ⟨d, hd, rfl⟩))
    (by
      intro c' hc' hne w hw
      have hc'cols : c' ∈ cols := ((mem_colsToTransformN df cols _ c').1 hc').1
      rcases List.mem_map.1 hw with ⟨d', hd', rfl⟩
      intro heq
      exact hdisj c' hc'cols c hccols hne
        (numDerive_key_mem _ _ _ d' hd') (heq ▸ numDerive_key_mem _ _ _ d hd))]
  rfl

/-! ## Replay of the numerical transformations -/

theorem writeAll_append {α : Type} (l : List (String × α)) (ws1 ws2 : List (String × α)) :
    writeAll l (ws1 ++ ws2) = writeAll (writeAll l ws1) ws2 :=
  List.foldl_append _ _ _ _

theorem flatMap_congr {α β : Type} (l : List α) (f g : α → List β)
    (h : ∀ a ∈ l, f a = g a) : l.flatMap f = l.flatMap g := by
  induction l with
  | nil => rfl
  | cons a l' ih =>
    rw [List.flatMap_cons, List.flatMap_cons, h a (List.mem_cons_self _ _),
      ih (fun a ha => h a (List.mem_cons_of_mem _ ha))]

theorem flatMap_ite_filter {α β : Type} [DecidableEq α] (l : List α) (q : α → Bool)
    (f : α → List β) :
    l.flatMap (fun c => if c ∈ l.filter q then f c else []) = (l.filter q).flatMap f := by
  have haux : ∀ (l' : List α), (∀ c ∈ l', (c ∈ l.filter q ↔ q c = true)) →
      l'.flatMap (fun c => if c ∈ l.filter q then f c else []) = (l'.filter q).flatMap f := by
    intro l'
    induction l' with
    | nil => intro _; rfl
    | cons c cs ih =>
      intro hsub
      rw [List.flatMap_cons, List.filter_cons]
      by_cases hq : q c = true
      · rw [if_pos ((hsub c (List.mem_cons_self _ _)).2 hq), if_pos hq, List.flatMap_cons,
          ih (fun a ha => hsub a (List.mem_cons_of_mem _ ha))]
      · rw [if_neg (fun hmem => hq ((hsub c (List.mem_cons_self _ _)).1 hmem)), if_neg hq,
          ih (fun a ha => hsub a (List.mem_cons_of_mem _ ha))]
        rfl
  apply haux
  intro c hcl
  constructor
  · intro hmem; exact (List.mem_filter.1 hmem).2
  · intro hq; exact List.mem_filter.2 ⟨hcl, hq⟩

theorem numDerive_stat_replay (cfg : FeatureTransformConfig) (xs : NumCol) (c : String)
    (d : String × NumCol × TStat) (hd : d ∈ numDerive cfg xs c) :
    applyStatN xs d.2.2 = some d.2.1 := by
  unfold numDerive at hd
  rcases List.mem_cons.1 hd with rfl | hd'
  · rfl
  · rcases List.mem_filterMap.1 hd' with ⟨n, hn, hfn⟩
    by_cases hlen : (dropna xs).length ≥ n
    · rw [if_pos hlen] at hfn
      rcases hcut : pdCutFit xs n with _ | p
      · rw [hcut] at hfn; cases hfn
      · rw [hcut] at hfn
        cases hfn
        show applyStatN xs (TStat.binned n p.2) = some p.1
        rw [applyStatN, pdCutFit_replay xs n p.1 p.2 (by rw [hcut])]
    · rw [if_neg hlen] at hfn; cases hfn

theorem numDerive_stat_some (cfg : FeatureTransformConfig) (xs xs2 : NumCol) (c : String)
    (d : String × NumCol × TStat) (hd : d ∈ numDerive cfg xs c) :
    ∃ vs, applyStatN xs2 d.2.2 = some vs := by
  unfold numDerive at hd
  rcases List.mem_cons.1 hd with rfl | hd'
  · exact ⟨_, rfl⟩
  · rcases List.mem_filterMap.1 hd' with ⟨n, hn, hfn⟩
    by_cases hlen : (dropna xs).length ≥ n
    · rw [if_pos hlen] at hfn
      rcases hcut : pdCutFit xs n with _ | p
      · rw [hcut] at hfn; cases hfn
      · rw [hcut] at hfn
        cases hfn
        exact ⟨_, rfl⟩
    · rw [if_neg hlen] at hfn; cases hfn

theorem applyTcolsN_writes (s : FEState) (df2 : NumDF) (c : String) :
    ∀ (ds : List (String × NumCol × TStat)) (acc : NumDF),
      (∀ d ∈ ds, alookup s.transform_stats d.1 = some d.2.2 ∧
        ∃ vs, applyStatN (colOf df2 c) d.2.2 = some vs) →
      applyTcolsN s df2 c (ds.map (·.1)) acc =
        Except.ok (writeAll acc (ds.map (fun d =>
          (d.1, (applyStatN (colOf df2 c) d.2.2).getD [])))) := by
  intro ds
  induction ds with
  | nil => intro acc _; rfl
  | cons d ds ih =>
    intro acc h
    obtain ⟨hst, vs, hvs⟩ := h d (List.mem_cons_self _ _)
    simp only [List.map_cons, applyTcolsN, hst, hvs]
    rw [ih (upsert acc d.1 vs) (fun d' hd' => h d' (List.mem_cons_of_mem _ hd'))]
    rfl

theorem applyTcolsN_binary (s : FEState) (df2 : NumDF) (c : String) (acc : NumDF)
    (u : List ℚ) (h : alookup s.transform_stats c = some (TStat.binaryNum u)) :
    applyTcolsN s df2 c [c] acc = Except.ok acc := by
  rw [applyTcolsN, h]
  rfl

theorem transformNGo_writes (s0 : FEState) (df : NumDF) (cols : List String)
    (tgt : Option String) (df2 : NumDF)
    (H1 : ∀ t, (setTarget s0 tgt).target_col = some t → t ∉ cols)
    (H2 : (allNamesN s0.config cols).Nodup) :
    ∀ (cs : List String), (∀ c ∈ cs, c ∈ cols) → ∀ (acc : NumDF),
      transformNGo (fit_transform_numerical s0 df cols tgt).1 df2 cs acc =
        Except.ok (writeAll acc (cs.flatMap (fun c =>
          if c ∈ colsToTransformN df cols (setTarget s0 tgt).target_col then
            (numDerive s0.config (colOf df c) c).map (fun d =>
              (d.1, (applyStatN (colOf df2 c) d.2.2).getD []))
          else []))) := by
  intro cs
  induction cs with
  | nil => intro _ acc; rfl
  | cons c cs ih =>
    intro hsub acc
    have hccols : c ∈ cols := hsub c (List.mem_cons_self _ _)
    have heff : (setTarget s0 tgt).target_col ≠ some c := by
      intro heq
      exact H1 c heq hccols
    rw [List.flatMap_cons, writeAll_append]
    by_cases hbin : c ∈ binaryColsN df cols
    · have hnotT : c ∉ colsToTransformN df cols (setTarget s0 tgt).target_col :=
        binary_not_colsT df cols _ c hbin
      have hbstep := applyTcolsN_binary (fit_transform_numerical s0 df cols tgt).1 df2 c acc _
        (fitN_stats_binary s0 df cols tgt H2 c hbin)
      simp only [transformNGo, fitN_mapping_binary s0 df cols tgt c hbin, hbstep]
      rw [ih (fun c' hc' => hsub c' (List.mem_cons_of_mem _ hc')) acc, if_neg hnotT]
      rfl
    · have hT : c ∈ colsToTransformN df cols (setTarget s0 tgt).target_col :=
        (mem_colsToTransformN df cols _ c).2 ⟨hccols, heff, hbin⟩
      have hstep := applyTcolsN_writes (fit_transform_numerical s0 df cols tgt).1 df2 c
        (numDerive s0.config (colOf df c) c) acc (fun d hd =>
          ⟨fitN_stats_derived s0 df cols tgt H2 c hT d hd,
            numDerive_stat_some s0.config (colOf df c) (colOf df2 c) c d hd⟩)
      simp only [transformNGo, fitN_mapping_colsT s0 df cols tgt c hT, hstep]
      rw [ih (fun c' hc' => hsub c' (List.mem_cons_of_mem _ hc')) _, if_pos hT]

theorem transformN_replays_fit (s0 : FEState) (df : NumDF) (cols : List String)
    (tgt : Option String)
    (H1 : ∀ t, (setTarget s0 tgt).target_col = some t → t ∉ cols)
    (H2 : (allNamesN s0.config cols).Nodup) :
    transform_numerical (fit_transform_numerical s0 df cols tgt).1 df cols =
      Except.ok (fit_transform_numerical s0 df cols tgt).2 := by
  rw [transform_numerical, transformNGo_writes s0 df cols tgt df H1 H2 cols (fun _ h => h) df]
  rw [fitN_out]
  congr 1
  have hconv : cols.flatMap (fun c =>
      if c ∈ colsToTransformN df cols (setTarget s0 tgt).target_col then
        (numDerive s0.config (colOf df c) c).map (fun d =>
          (d.1, (applyStatN (colOf df c) d.2.2).getD []))
      else []) =
      (colsToTransformN df cols (setTarget s0 tgt).target_col).flatMap (fun c =>
        (numDerive s0.config (colOf df c) c).map (fun d =>
          (d.1, (applyStatN (colOf df c) d.2.2).getD []))) := by
    exact flatMap_ite_filter cols _ _
  rw [hconv]
  congr 1
  apply flatMap_congr
  intro c hc
  apply List.map_congr_left
  intro d hd
  rw [numDerive_stat_replay s0.config (colOf df c) c d hd]
  rfl


/-! ## Categorical fit characterization and replay -/

theorem mem_colsToTransformC (df : CatDF) (cols : List String) (eff : Option String)
    (c : String) :
    c ∈ colsToTransformC df cols eff ↔
      c ∈ cols ∧ eff ≠ some c ∧ c ∉ binaryColsC df cols := by
  unfold colsToTransformC
  rw [List.mem_filter]
  constructor
  · rintro ⟨hc, hb⟩
    rw [Bool.and_eq_true, decide_eq_true_eq, Bool.not_eq_true'] at hb
    refine ⟨hc, hb.1, fun hmem => ?_⟩
    have := (contains_iff_mem (binaryColsC df cols) c).2 hmem
    rw [this] at hb
    exact Bool.noConfusion hb.2
  · rintro ⟨hc, heff, hb⟩
    refine ⟨hc, ?_⟩
    rw [Bool.and_eq_true, decide_eq_true_eq, Bool.not_eq_true']
    refine ⟨heff, ?_⟩
    rcases hcon : (binaryColsC df cols).contains c with _ | _
    · rfl
    · exact absurd ((contains_iff_mem (binaryColsC df cols) c).1 hcon) hb

theorem binary_not_colsTC (df : CatDF) (cols : List String) (eff : Option String)
    (c : String) (hb : c ∈ binaryColsC df cols) : c ∉ colsToTransformC df cols eff := by
  intro hmem
  exact ((mem_colsToTransformC df cols eff c).1 hmem).2.2 hb

theorem foldGuard_lookup (bs : List String) :
    ∀ (m0 : List (String × List String)) (k : String),
      alookup (bs.foldl (fun m c => match alookup m c with
        | none => upsert m c [c]
        | some _ => m) m0) k =
      (alookup m0 k).or (if k ∈ bs then some [k] else none) := by
  induction bs with
  | nil =>
    intro m0 k
    rw [List.foldl_nil, if_neg (List.not_mem_nil k)]
    cases alookup m0 k <;> rfl
  | cons b bs ih =>
    intro m0 k
    rw [List.foldl_cons, ih]
    rcases hb : alookup m0 b with _ | v
    · simp only [hb]
      rw [alookup_upsert]
      by_cases hk : k = b
      · subst hk
        rw [if_pos rfl, hb, Option.none_or, if_pos (List.mem_cons_self _ _)]
        rfl
      · rw [if_neg hk]
        congr 1
        by_cases hm : k ∈ bs
        · rw [if_pos hm, if_pos (List.mem_cons_of_mem _ hm)]
        · rw [if_neg hm,
            if_neg (fun hc => (List.mem_cons.1 hc).elim (fun h => hk h) hm)]
    · simp only [hb]
      by_cases hk : k = b
      · subst hk
        rw [hb]
        rfl
      · congr 1
        by_cases hm : k ∈ bs
        · rw [if_pos hm, if_pos (List.mem_cons_of_mem _ hm)]
        · rw [if_neg hm,
            if_neg (fun hc => (List.mem_cons.1 hc).elim (fun h => hk h) hm)]

theorem fitC_state_mapping (s0 : FEState) (df : CatDF) (cols : List String)
    (tgt : Option String) :
    (fit_transform_categorical s0 df cols tgt).1.feature_mapping =
      writeAll
        ((binaryColsC df cols).foldl (fun m c => match alookup m c with
          | none => upsert m c [c]
          | some _ => m) s0.feature_mapping)
        ((colsToTransformC df cols (setTarget s0 tgt).target_col).map
          (fun c => (c, if rareOf s0.config (colOf df c) = [] then [c]
            else [groupedName c]))) := by
  show writeAll
      ((binaryColsC df cols).foldl _ (setTarget s0 tgt).feature_mapping)
      ((colsToTransformC df cols (setTarget s0 tgt).target_col).map _) = _
  rw [setTarget_mapping, setTarget_config]

theorem fitC_state_stats (s0 : FEState) (df : CatDF) (cols : List String)
    (tgt : Option String) :
    (fit_transform_categorical s0 df cols tgt).1.transform_stats =
      writeAll
        (writeAll s0.transform_stats
          ((binaryColsC df cols).map
            (fun c => (c, TStat.binaryCat (uniquesFO (dropna (colOf df c)))))))
        ((colsToTransformC df cols (setTarget s0 tgt).target_col).filterMap
          (fun c =>
            if rareOf s0.config (colOf df c) = [] then none
            else
              some (groupedName c,
                TStat.categoricalGrouped (catMapping s0.config (colOf df c))
                  (rareOf s0.config (colOf df c)) s0.config.min_category_freq))) := by
  show writeAll
      (writeAll (setTarget s0 tgt).transform_stats _)
      ((colsToTransformC df cols (setTarget s0 tgt).target_col).filterMap _) = _
  rw [setTarget_stats, setTarget_config]

theorem fitC_out (s0 : FEState) (df : CatDF) (cols : List String) (tgt : Option String) :
    (fit_transform_categorical s0 df cols tgt).2 =
      writeAll df
        ((colsToTransformC df cols (setTarget s0 tgt).target_col).filterMap
          (fun c =>
            if rareOf s0.config (colOf df c) = [] then none
            else some (groupedName c, groupedVals s0.config (colOf df c)))) := by
  show writeAll df
      ((colsToTransformC df cols (setTarget s0 tgt).target_col).filterMap _) = _
  rw [setTarget_config]

theorem fitC_mapping_binary (s0 : FEState) (df : CatDF) (cols : List String)
    (tgt : Option String) (c : String) (hb : c ∈ binaryColsC df cols)
    (h5 : alookup s0.feature_mapping c = none) :
    alookup (fit_transform_categorical s0 df cols tgt).1.feature_mapping c = some [c] := by
  rw [fitC_state_mapping, alookup_writeAll]
  rw [lastW_eq_none _ c (by
    intro w hw
    rcases List.mem_map.1 hw with ⟨c', hc', rfl⟩
    intro hcc
    have hcc' : c' = c := hcc
    exact binary_not_colsTC df cols _ c hb (hcc' ▸ hc')), Option.none_or]
  rw [foldGuard_lookup, h5, Option.none_or, if_pos hb]

theorem fitC_mapping_colsT (s0 : FEState) (df : CatDF) (cols : List String)
    (tgt : Option String) (c : String)
    (hc : c ∈ colsToTransformC df cols (setTarget s0 tgt).target_col) :
    alookup (fit_transform_categorical s0 df cols tgt).1.feature_mapping c =
      some (if rareOf s0.config (colOf df c) = [] then [c] else [groupedName c]) := by
  rw [fitC_state_mapping, alookup_writeAll]
  rw [lastW_map_self
    (fun c => if rareOf s0.config (colOf df c) = [] then [c] else [groupedName c]) _ c hc]
  rfl

theorem fitC_mapping_untouched (s0 : FEState) (df : CatDF) (cols : List String)
    (tgt : Option String) (c : String) (hb : c ∉ binaryColsC df cols)
    (hc : c ∉ colsToTransformC df cols (setTarget s0 tgt).target_col) :
    alookup (fit_transform_categorical s0 df cols tgt).1.feature_mapping c =
      alookup s0.feature_mapping c := by
  rw [fitC_state_mapping, alookup_writeAll]
  rw [lastW_eq_none _ c (by
    intro w hw
    rcases List.mem_map.1 hw with ⟨c', hc', rfl⟩
    intro hcc
    have hcc' : c' = c := hcc
    exact hc (hcc' ▸ hc')), Option.none_or]
  rw [foldGuard_lookup, if_neg hb]
  cases alookup s0.feature_mapping c <;> rfl

theorem fitC_stats_grouped (s0 : FEState) (df : CatDF) (cols : List String)
    (tgt : Option String) (H2 : (allNamesC cols).Nodup) (c : String)
    (hc : c ∈ colsToTransformC df cols (setTarget s0 tgt).target_col)
    (hr : rareOf s0.config (colOf df c) ≠ []) :
    alookup (fit_transform_categorical s0 df cols tgt).1.transform_stats (groupedName c) =
      some (TStat.categoricalGrouped (catMapping s0.config (colOf df c))
        (rareOf s0.config (colOf df c)) s0.config.min_category_freq) := by
  have hA : (cols ++ cols.map groupedName).Nodup := H2
  have hnd : (cols.map groupedName).Nodup := (List.nodup_append.1 hA).2.1
  have hsub1 : (((colsToTransformC df cols (setTarget s0 tgt).target_col).filterMap
      (fun c =>
        if rareOf s0.config (colOf df c) = [] then none
        else
          some (groupedName c,
            TStat.categoricalGrouped (catMapping s0.config (colOf df c))
              (rareOf s0.config (colOf df c)) s0.config.min_category_freq))).map
      (·.1)).Sublist
      ((colsToTransformC df cols (setTarget s0 tgt).target_col).map groupedName) := by
    apply filterMap_map_sublist
    intro a b hab
    by_cases ha : rareOf s0.config (colOf df a) = []
    · rw [if_pos ha] at hab; cases hab
    · rw [if_neg ha] at hab; cases hab; rfl
  have hsub2 : ((colsToTransformC df cols (setTarget s0 tgt).target_col).map
      groupedName).Sublist (cols.map groupedName) :=
    (List.filter_sublist cols).map groupedName
  rw [fitC_state_stats, alookup_writeAll]
  rw [lastW_nodup_mem _ ((hsub1.trans hsub2).nodup hnd)
    (groupedName c,
      TStat.categoricalGrouped (catMapping s0.config (colOf df c))
        (rareOf s0.config (colOf df c)) s0.config.min_category_freq)
    (List.mem_filterMap.2 ⟨c, hc, by rw [if_neg hr]⟩)]
  rfl

theorem mem_uniquesFO {α : Type} [DecidableEq α] (l : List α) (x : α) :
    x ∈ uniquesFO l ↔ x ∈ l := by
  have haux : ∀ (l' : List α) (acc : List α),
      x ∈ l'.foldl (fun acc x => if x ∈ acc then acc else acc ++ [x]) acc ↔
        x ∈ acc ∨ x ∈ l' := by
    intro l'
    induction l' with
    | nil => intro acc; simp
    | cons a l'' ih =>
      intro acc
      rw [List.foldl_cons, ih]
      by_cases ha : a ∈ acc
      · rw [if_pos ha]
        constructor
        · rintro (h | h)
          · exact Or.inl h
          · exact Or.inr (List.mem_cons_of_mem _ h)
        · rintro (h | h)
          · exact Or.inl h
          · rcases List.mem_cons.1 h with rfl | h'
            · exact Or.inl ha
            · exact Or.inr h'
      · rw [if_neg ha]
        constructor
        · rintro (h | h)
          · rcases List.mem_append.1 h with h' | h'
            · exact Or.inl h'
            · rcases List.mem_singleton.1 h' with rfl
              exact Or.inr (List.mem_cons_self _ _)
          · exact Or.inr (List.mem_cons_of_mem _ h)
        · rintro (h | h)
          · exact Or.inl (List.mem_append.2 (Or.inl h))
          · rcases List.mem_cons.1 h with rfl | h'
            · exact Or.inl (List.mem_append.2 (Or.inr (List.mem_singleton.2 rfl)))
            · exact Or.inr h'
  unfold uniquesFO
  rw [haux]
  simp

theorem mem_valueCountsIdx (xs : CatCol) (v : String) :
    v ∈ valueCountsIdx xs ↔ v ∈ dropna xs := by
  unfold valueCountsIdx
  rw [(List.perm_insertionSort _ _).mem_iff, mem_uniquesFO]

theorem alookup_map_self {α : Type} (f : String → α) (l : List String) (k : String)
    (h : k ∈ l) : alookup (l.map (fun c => (c, f c))) k = some (f k) := by
  induction l with
  | nil => cases h
  | cons c cs ih =>
    show (if c = k then some (f c) else alookup (cs.map (fun c => (c, f c))) k) = some (f k)
    by_cases hc : c = k
    · subst hc
      rw [if_pos rfl]
    · rw [if_neg hc]
      exact ih ((List.mem_cons.1 h).resolve_left (fun hk => hc hk.symm))

theorem regroup_eq_grouped (cfg : FeatureTransformConfig) (xs : CatCol)
    (hnm : (none : Option String) ∉ xs) :
    regroupVals (catMapping cfg xs) (rareOf cfg xs) xs = groupedVals cfg xs := by
  unfold regroupVals groupedVals
  apply List.map_congr_left
  intro o ho
  rcases o with _ | v
  · exact absurd ho hnm
  · have hv : v ∈ dropna xs := List.mem_filterMap.2 ⟨some v, ho, rfl⟩
    have hvm : v ∈ valueCountsIdx xs := (mem_valueCountsIdx xs v).2 hv
    have hlk : alookup (catMapping cfg xs) v =
        some (if v ∈ rareOf cfg xs then otherLabel (rareOf cfg xs) else v) := by
      unfold catMapping
      exact alookup_map_self _ _ v hvm
    show some ((alookup (catMapping cfg xs) v).getD (fallbackLabel (rareOf cfg xs))) =
      alookup (catMapping cfg xs) v
    rw [hlk]
    rfl

theorem applyTcolsC_self (s : FEState) (df : CatDF) (c : String) (acc : CatDF) :
    applyTcolsC s df c [c] acc = Except.ok acc := by
  show (if c = c then applyTcolsC s df c [] acc else _) = Except.ok acc
  rw [if_pos rfl]
  rfl

theorem applyTcolsC_grouped (s : FEState) (df : CatDF) (c t : String) (acc : CatDF)
    (m : List (String × String)) (rare : List String) (q : ℚ)
    (hne : t ≠ c)
    (hst : alookup s.transform_stats t = some (TStat.categoricalGrouped m rare q)) :
    applyTcolsC s df c [t] acc =
      Except.ok (upsert acc t (regroupVals m rare (colOf df c))) := by
  simp only [applyTcolsC, if_neg hne, hst]

theorem transformCGo_writes (s0 : FEState) (df : CatDF) (cols : List String)
    (tgt : Option String)
    (H1 : ∀ t, (setTarget s0 tgt).target_col = some t → t ∉ cols)
    (H2 : (allNamesC cols).Nodup)
    (H5 : ∀ c ∈ cols, alookup s0.feature_mapping c = none) :
    ∀ (cs : List String), (∀ c ∈ cs, c ∈ cols) → ∀ (acc : CatDF),
      transformCGo (fit_transform_categorical s0 df cols tgt).1 df cs acc =
        Except.ok (writeAll acc (cs.flatMap (fun c =>
          if c ∈ colsToTransformC df cols (setTarget s0 tgt).target_col then
            (if rareOf s0.config (colOf df c) = [] then []
             else [(groupedName c,
                regroupVals (catMapping s0.config (colOf df c))
                  (rareOf s0.config (colOf df c)) (colOf df c))])
          else []))) := by
  intro cs
  induction cs with
  | nil => intro _ acc; rfl
  | cons c cs ih =>
    intro hsub acc
    have hccols : c ∈ cols := hsub c (List.mem_cons_self _ _)
    have heff : (setTarget s0 tgt).target_col ≠ some c := fun heq => H1 c heq hccols
    rw [List.flatMap_cons, writeAll_append]
    by_cases hbin : c ∈ binaryColsC df cols
    · have hnotT := binary_not_colsTC df cols (setTarget s0 tgt).target_col c hbin
      have hmap := fitC_mapping_binary s0 df cols tgt c hbin (H5 c hccols)
      have hstep := applyTcolsC_self (fit_transform_categorical s0 df cols tgt).1 df c acc
      simp only [transformCGo, hmap, hstep]
      rw [ih (fun c' hc' => hsub c' (List.mem_cons_of_mem _ hc')) acc, if_neg hnotT]
      rfl
    · have hT : c ∈ colsToTransformC df cols (setTarget s0 tgt).target_col :=
        (mem_colsToTransformC df cols _ c).2 ⟨hccols, heff, hbin⟩
      have hmap := fitC_mapping_colsT s0 df cols tgt c hT
      by_cases hr : rareOf s0.config (colOf df c) = []
      · rw [if_pos hr] at hmap
        have hstep := applyTcolsC_self (fit_transform_categorical s0 df cols tgt).1 df c acc
        simp only [transformCGo, hmap, hstep]
        rw [ih (fun c' hc' => hsub c' (List.mem_cons_of_mem _ hc')) acc, if_pos hT, if_pos hr]
        rfl
      · rw [if_neg hr] at hmap
        have hgc : groupedName c ≠ c := by
          intro heq
          have hA : (cols ++ cols.map groupedName).Nodup := H2
          have hd := (List.nodup_append.1 hA).2.2
          exact hd hccols (heq ▸ List.mem_map.2 ⟨c, hccols, rfl⟩)
        have hstat := fitC_stats_grouped s0 df cols tgt H2 c hT hr
        have hstep := applyTcolsC_grouped (fit_transform_categorical s0 df cols tgt).1 df c
          (groupedName c) acc _ _ _ hgc hstat
        simp only [transformCGo, hmap, hstep]
        rw [ih (fun c' hc' => hsub c' (List.mem_cons_of_mem _ hc')) _, if_pos hT, if_neg hr]
        rfl

theorem flatMap_ite_eq_filterMap {α β : Type} (l : List α) (p : α → Prop)
    [DecidablePred p] (g : α → β) :
    l.flatMap (fun a => if p a then [] else [g a]) =
      l.filterMap (fun a => if p a then none else some (g a)) := by
  induction l with
  | nil => rfl
  | cons a l' ih =>
    rw [List.flatMap_cons]
    by_cases ha : p a
    · rw [if_pos ha, List.filterMap_cons_none (by rw [if_pos ha]), ih]
      rfl
    · rw [if_neg ha, List.filterMap_cons_some (by rw [if_neg ha]), ih]
      rfl

theorem filterMap_congr {α β : Type} (l : List α) (f g : α → Option β)
    (h : ∀ a ∈ l, f a = g a) : l.filterMap f = l.filterMap g := by
  induction l with
  | nil => rfl
  | cons a l' ih =>
    rw [List.filterMap_cons, List.filterMap_cons, h a (List.mem_cons_self _ _),
      ih (fun a ha => h a (List.mem_cons_of_mem _ ha))]

theorem transformC_replays_fit (s0 : FEState) (df : CatDF) (cols : List String)
    (tgt : Option String)
    (H1 : ∀ t, (setTarget s0 tgt).target_col = some t → t ∉ cols)
    (H2 : (allNamesC cols).Nodup)
    (H5 : ∀ c ∈ cols, alookup s0.feature_mapping c = none)
    (H6 : ∀ c ∈ cols, (none : Option String) ∉ colOf df c) :
    transform_categorical (fit_transform_categorical s0 df cols tgt).1 df cols =
      Except.ok (fit_transform_categorical s0 df cols tgt).2 := by
  rw [transform_categorical,
    transformCGo_writes s0 df cols tgt H1 H2 H5 cols (fun _ h => h) df]
  rw [fitC_out]
  congr 1
  have hconv : cols.flatMap (fun c =>
      if c ∈ colsToTransformC df cols (setTarget s0 tgt).target_col then
        (if rareOf s0.config (colOf df c) = [] then []
         else [(groupedName c,
            regroupVals (catMapping s0.config (colOf df c))
              (rareOf s0.config (colOf df c)) (colOf df c))])
      else []) =
      (colsToTransformC df cols (setTarget s0 tgt).target_col).flatMap (fun c =>
        if rareOf s0.config (colOf df c) = [] then []
        else [(groupedName c,
          regroupVals (catMapping s0.config (colOf df c))
            (rareOf s0.config (colOf df c)) (colOf df c))]) :=
    flatMap_ite_filter cols _ _
  rw [hconv]
  congr 1
  rw [flatMap_ite_eq_filterMap
    (colsToTransformC df cols (setTarget s0 tgt).target_col)
    (fun c => rareOf s0.config (colOf df c) = [])
    (fun c => (groupedName c,
      regroupVals (catMapping s0.config (colOf df c))
        (rareOf s0.config (colOf df c)) (colOf df c)))]
  apply filterMap_congr
  intro c hc
  have hcc : c ∈ cols := List.mem_of_mem_filter hc
  by_cases hr : rareOf s0.config (colOf df c) = []
  · rw [if_pos hr, if_pos hr]
  · rw [if_neg hr, if_neg hr,
      regroup_eq_grouped s0.config (colOf df c) (H6 c hcc)]

/-! ## Claim C5 -/

/-- C5 (code_bug evaluation): with the numeric cardinality cap set to 3, a
column with exactly 3 distinct values among 4 rows — cardinality equal to
the cap — is removed with reason high_cardinality, because FeatureFilter.fit
compares with >=; the claim, the spec and the class docstring (">1000
unique values") all describe a strict comparison under which a column at
the cap is kept.  (The ratio-based mode the claim describes does not exist:
FeatureFilterConfig has no max_cardinality_ratio field, although
transform_data.py and tests/test_feature_filter.py pass one.) -/
theorem C5_cardinality_at_cap_removed :
    ((alookup (filterFit
        { max_missing_rate := 9 / 10, max_cardinality_numeric := 3,
          max_cardinality_categorical := 100, min_variance := 0, max_correlation := 99 / 100 }
        { nrows := 4, data := [("x", FCol.num [some 1, some 2, some 3, some 1])] }
        (some ["x"]) (some []) none).filter_report "x").map
      (fun r => (r.kept, r.removal_reason))) = some (false, some "high_cardinality") := by
  norm_num [filterFit, effNumColsF, effCatColsF, dropTarget, autoNumCols, autoCatCols,
    mkReport, fcolOf, alookup, writeAll, upsert, lastW, isnaCount, nuniqueF, nuniqueO,
    uniquesFO, dropna, varOf, meanQ, isNumDtype, List.filterMap, List.countP_cons,
    List.countP_nil, List.foldl]

/-! ## Claim C8 -/

/-- C8 counterexample: an infinite statistical-test score is not recorded
as 0 — np.nan_to_num(scores, nan=0.0) only replaces NaN by 0 and maps the
infinities to the extreme finite doubles. -/
theorem C8_counterexample : statistical_scores [FloatVal.posinf] ≠ [0] := by
  simp only [statistical_scores, List.map_cons, List.map_nil, nanToNum, maxFloat]
  intro h
  have h0 : ((2 : ℚ) ^ 53 - 1) * 2 ^ 971 = 0 := by injection h
  norm_num at h0

/-- C8 amended: in the statistical score table, NaN scores are recorded as
0, while +inf and -inf scores are recorded as plus/minus the largest finite
double (np.nan_to_num defaults), which is nonzero. -/
theorem C8_nonfinite_scores :
    (∀ (raw : List FloatVal) (i : Nat), raw[i]? = some FloatVal.nan →
      (statistical_scores raw)[i]? = some 0) ∧
    (∀ (raw : List FloatVal) (i : Nat), raw[i]? = some FloatVal.posinf →
      (statistical_scores raw)[i]? = some maxFloat ∧ maxFloat ≠ 0) ∧
    (∀ (raw : List FloatVal) (i : Nat), raw[i]? = some FloatVal.neginf →
      (statistical_scores raw)[i]? = some (-maxFloat) ∧ maxFloat ≠ 0) := by
  refine ⟨fun raw i h => ?_, fun raw i h => ⟨?_, by norm_num [maxFloat]⟩,
    fun raw i h => ⟨?_, by norm_num [maxFloat]⟩⟩ <;>
    simp [statistical_scores, List.getElem?_map, h, nanToNum]

/-- C8 witness. -/
theorem C8_nonfinite_scores_witness :
    (statistical_scores [FloatVal.nan])[0]? = some 0 ∧
      (statistical_scores [FloatVal.posinf])[0]? = some maxFloat ∧ maxFloat ≠ 0 :=
  ⟨C8_nonfinite_scores.1 [FloatVal.nan] 0 rfl, C8_nonfinite_scores.2.1 [FloatVal.posinf] 0 rfl⟩

/-! ## Claim C9 -/

/-- C9 counterexample: an unfitted FeatureEngineer's transform_numerical
called with an empty column list returns a table instead of raising. -/
theorem C9_counterexample :
    transform_numerical (initFE {}) [("x", [some 1])] [] =
      Except.ok [("x", [some 1])] := rfl

/-- C9 amended: on a freshly constructed, never-fitted instance,
FeatureFilter.transform and FeatureSelector.transform always raise their
not-fitted ValueError, and FeatureEngineer's transform_numerical /
transform_categorical raise whenever the requested column list is
nonempty (the first column has no fitted mapping); all of these methods
leave the instance state unchanged, as none of them writes any state. -/
theorem C9_unfitted_raises :
    (∀ (cfg : FeatureTransformConfig) (df : NumDF) (c : String) (cs : List String),
      transform_numerical (initFE cfg) df (c :: cs) = Except.error (notFittedMsg c)) ∧
    (∀ (cfg : FeatureTransformConfig) (df : CatDF) (c : String) (cs : List String),
      transform_categorical (initFE cfg) df (c :: cs) = Except.error (notFittedMsg c)) ∧
    (∀ (cfg : FeatureFilterConfig) (df : FDF),
      filterTransform (initFilter cfg) df = Except.error filterNotFittedMsg) ∧
    (∀ (cfg : FeatureSelectionConfig) (df : FDF),
      selTransform (initSel cfg) df = Except.error selNotFittedMsg) :=
  ⟨fun _ _ _ _ => rfl, fun _ _ _ _ => rfl, fun _ _ => rfl, fun _ _ => rfl⟩

/-! ## Claim C10 -/

/-- C10: a FeatureFilter whose fit kept zero features, and a
FeatureSelector whose fit selected zero features, raise on transform the
very same not-fitted ValueError a never-fitted instance raises, because
both transform guards test emptiness of the kept/selected list. -/
theorem C10_empty_fit_not_fitted :
    (∀ (cfg : FeatureFilterConfig) (df df2 : FDF) (nc cc : Option (List String))
        (tgt : Option String),
      (filterFit cfg df nc cc tgt).kept_features = [] →
      filterTransform (filterFit cfg df nc cc tgt) df2 = Except.error filterNotFittedMsg ∧
        filterTransform (initFilter cfg) df2 = Except.error filterNotFittedMsg) ∧
    (∀ (cfg : FeatureSelectionConfig) (corr : String → String → ℚ)
        (fs : List (String × List (String × ℚ))) (names : List String) (df2 : FDF),
      (selFit cfg corr fs names).selected_features = [] →
      selTransform (selFit cfg corr fs names) df2 = Except.error selNotFittedMsg ∧
        selTransform (initSel cfg) df2 = Except.error selNotFittedMsg) := by
  constructor
  · intro cfg df df2 nc cc tgt h
    exact ⟨by simp [filterTransform, h], rfl⟩
  · intro cfg corr fs names df2 h
    exact ⟨by simp [selTransform, h], rfl⟩

/-- C10 witness: a filter fit on a single constant numeric column keeps
nothing (zero variance), and a selector fit with top_k = 0 selects
nothing; both subsequent transforms raise the not-fitted errors. -/
theorem C10_empty_fit_not_fitted_witness :
    (filterTransform
        (filterFit {} { nrows := 3, data := [("z", FCol.num [some 5, some 5, some 5])] }
          (some ["z"]) (some []) none)
        { nrows := 3, data := [("z", FCol.num [some 5, some 5, some 5])] } =
      Except.error filterNotFittedMsg ∧
      filterTransform (initFilter {})
          { nrows := 3, data := [("z", FCol.num [some 5, some 5, some 5])] } =
        Except.error filterNotFittedMsg) ∧
    (selTransform
        (selFit { top_k := some 0, threshold := none, max_correlation := 95 / 100 }
          (fun _ _ => 0) [("m1", [("a", 1)])] ["a"])
        { nrows := 1, data := [("a", FCol.num [some 1])] } =
      Except.error selNotFittedMsg ∧
      selTransform (initSel { top_k := some 0, threshold := none, max_correlation := 95 / 100 })
          { nrows := 1, data := [("a", FCol.num [some 1])] } =
        Except.error selNotFittedMsg) :=
  ⟨C10_empty_fit_not_fitted.1 {} _ _ (some ["z"]) (some []) none (by
      norm_num [filterFit, effNumColsF, effCatColsF, dropTarget, autoNumCols, autoCatCols,
        mkReport, fcolOf, alookup, writeAll, upsert, lastW, isnaCount, nuniqueF, nuniqueO,
        uniquesFO, dropna, varOf, meanQ, isNumDtype, List.filterMap, List.countP_cons,
        List.countP_nil, List.foldl, List.filter_cons]
      rw [if_neg (fun h : VarVal.val (0 : ℚ) = VarVal.noneV => VarVal.noConfusion h)]),
    C10_empty_fit_not_fitted.2 _ (fun _ _ => 0) [("m1", [("a", 1)])] ["a"] _ (by
      norm_num [selFit, select_features, sortedFeatures, aggregatedScores, selectLoop,
        meanQ, alookup, List.insertionSort, List.orderedInsert, List.filterMap,
        List.reduceOption])⟩

/-! ## Claim C6 -/

theorem varOf_ne_noneV (x : FCol) : varOf x ≠ VarVal.noneV := by
  cases x with
  | cat l => exact fun h => VarVal.noConfusion h
  | num l =>
    show (if (dropna l).length ≤ 1 then VarVal.nanV
      else VarVal.val ((((dropna l).map (fun v => (v - meanQ (dropna l)) ^ 2)).sum /
        (((dropna l).length : ℚ) - 1)))) ≠ VarVal.noneV
    split <;> exact fun h => VarVal.noConfusion h

theorem or_none_eq_some {α : Type} {o : Option α} {v : α} (h : o.or none = some v) :
    o = some v := by
  cases o with
  | none => cases h
  | some w => exact h

theorem mkReport_spec (cfg : FeatureFilterConfig) (df : FDF) (numCols catCols : List String)
    (c : String) :
    ((mkReport cfg df numCols catCols c).kept = true ↔
      (mkReport cfg df numCols catCols c).removal_reason = none) ∧
    (mkReport cfg df numCols catCols c).removal_reason = reasonSpec cfg df numCols catCols c := by
  unfold mkReport reasonSpec
  by_cases h1 : (isnaCount (fcolOf df c) : ℚ) / (df.nrows : ℚ) > cfg.max_missing_rate
  · simp [h1]
  · by_cases h2 : c ∈ numCols ∧ nuniqueF (fcolOf df c) ≥ cfg.max_cardinality_numeric
    · simp [h1, h2]
    · by_cases h3 : c ∈ catCols ∧ nuniqueF (fcolOf df c) ≥ cfg.max_cardinality_categorical
      · simp [h1, h2, h3]
      · by_cases h4 : c ∈ numCols ∧ isNumDtype (fcolOf df c) = true
        · have hc2 : ¬ cfg.max_cardinality_numeric ≤ nuniqueF (fcolOf df c) :=
            fun hle => h2 ⟨h4.1, hle⟩
          rcases hv : varOf (fcolOf df c) with _ | _ | v
          · exact absurd hv (varOf_ne_noneV _)
          · simp [h1, h2, h3, h4, h4.1, h4.2, hc2, hv, Bool.and_eq_true, decide_eq_true_eq]
          · by_cases h5 : v ≤ cfg.min_variance
            · simp [h1, h2, h3, h4, h4.1, h4.2, hc2, hv, h5, Bool.and_eq_true,
                decide_eq_true_eq]
            · simp [h1, h2, h3, h4, h4.1, h4.2, hc2, hv, h5, Bool.and_eq_true,
                decide_eq_true_eq]
        · simp only [not_and_or] at h4
          rcases h4 with h4 | h4
          · simp [h1, h2, h3, h4, Bool.and_eq_true, decide_eq_true_eq]
          · simp [h1, h2, h3, h4, Bool.and_eq_true, decide_eq_true_eq]

/-- C6: every record of filter_report satisfies kept == (removal_reason is
None); the recorded reason is exactly the first applicable rule in the
fixed order high_missingness, high_cardinality (numeric cap before
categorical cap, both spelled high_cardinality), zero_variance — so each
removed column carries exactly one reason, the spec-ordered first one. -/
theorem C6_filter_invariant :
    ∀ (cfg : FeatureFilterConfig) (df : FDF) (nc0 cc0 : Option (List String))
      (tgt : Option String) (c : String) (r : ColReport),
      alookup (filterFit cfg df nc0 cc0 tgt).filter_report c = some r →
      ((r.kept = true ↔ r.removal_reason = none) ∧
        r.removal_reason =
          reasonSpec cfg df (effNumColsF df nc0 tgt) (effCatColsF df cc0 tgt) c) := by
  intro cfg df nc0 cc0 tgt c r h
  have hlast : lastW ((effNumColsF df nc0 tgt ++ effCatColsF df cc0 tgt).map
      (fun c => (c, mkReport cfg df (effNumColsF df nc0 tgt) (effCatColsF df cc0 tgt) c))) c =
      some r := by
    have h' := h
    rw [show (filterFit cfg df nc0 cc0 tgt).filter_report =
        writeAll [] ((effNumColsF df nc0 tgt ++ effCatColsF df cc0 tgt).map
          (fun c => (c, mkReport cfg df (effNumColsF df nc0 tgt)
            (effCatColsF df cc0 tgt) c))) from rfl, alookup_writeAll] at h'
    exact or_none_eq_some h'
  have hr := lastW_map_det _ _ _ _ hlast
  subst hr
  exact mkReport_spec cfg df _ _ c

/-- C6 witness. -/
theorem C6_filter_invariant_witness :
    ((mkReport {} exFilterDF (effNumColsF exFilterDF (some ["w"]) none)
          (effCatColsF exFilterDF (some []) none) "w").kept = true ↔
        (mkReport {} exFilterDF (effNumColsF exFilterDF (some ["w"]) none)
          (effCatColsF exFilterDF (some []) none) "w").removal_reason = none) ∧
      (mkReport {} exFilterDF (effNumColsF exFilterDF (some ["w"]) none)
          (effCatColsF exFilterDF (some []) none) "w").removal_reason =
        reasonSpec {} exFilterDF (effNumColsF exFilterDF (some ["w"]) none)
          (effCatColsF exFilterDF (some []) none) "w" :=
  C6_filter_invariant {} exFilterDF (some ["w"]) (some []) none "w" _ rfl

/-! ## Claim C2 -/

theorem selectLoop_length_le (cfg : FeatureSelectionConfig) (corr : String → String → ℚ)
    (k : Nat) (hk : cfg.top_k = some k) :
    ∀ (items : List (String × ℚ)) (sel red : List String), sel.length ≤ k →
      (selectLoop cfg corr items sel red).1.length ≤ k := by
  intro items
  induction items with
  | nil => intro sel red h; exact h
  | cons p rest ih =>
    intro sel red h
    rw [selectLoop]
    split
    · exact h
    · rename_i htop
      have hlt : sel.length < k := by
        rw [hk] at htop
        simp only [decide_eq_true_eq] at htop
        exact Nat.lt_of_not_le htop
      split
      · exact h
      · split
        · split
          · exact ih sel (red ++ [p.1]) h
          · exact ih (sel ++ [p.1]) red (by simpa using hlt)
        · exact ih (sel ++ [p.1]) red (by simpa using hlt)

theorem selectLoop_pairwise (cfg : FeatureSelectionConfig) (corr : String → String → ℚ)
    (hsym : ∀ a b, corr a b = corr b a) (hbd : ∀ a b, |corr a b| ≤ 1) :
    ∀ (items : List (String × ℚ)) (sel red : List String),
      (∀ a ∈ sel, ∀ b ∈ sel, a ≠ b → |corr a b| ≤ cfg.max_correlation) →
      ∀ a ∈ (selectLoop cfg corr items sel red).1,
        ∀ b ∈ (selectLoop cfg corr items sel red).1,
          a ≠ b → |corr a b| ≤ cfg.max_correlation := by
  intro items
  induction items with
  | nil => intro sel red hinv; exact hinv
  | cons p rest ih =>
    intro sel red hinv
    rw [selectLoop]
    split
    · exact hinv
    · split
      · exact hinv
      · split
        · -- the redundancy check runs
          split
          · -- a redundant partner was found: candidate skipped
            exact ih sel (red ++ [p.1]) hinv
          · -- no redundant partner: candidate accepted
            rename_i hfind
            apply ih
            intro a ha b hb hne
            have hok : ∀ s ∈ sel, ¬ (cfg.max_correlation < |corr p.1 s|) := by
              intro s hs
              have := List.find?_eq_none.1 hfind s hs
              simpa using this
            rcases List.mem_append.1 ha with ha' | ha' <;>
              rcases List.mem_append.1 hb with hb' | hb'
            · exact hinv a ha' b hb' hne
            · have hb1 : b = p.1 := by simpa using hb'
              subst hb1
              rw [hsym]
              exact le_of_not_lt (hok a ha')
            · have ha1 : a = p.1 := by simpa using ha'
              subst ha1
              exact le_of_not_lt (hok b hb')
            · have ha1 : a = p.1 := by simpa using ha'
              have hb1 : b = p.1 := by simpa using hb'
              exact absurd (ha1.trans hb1.symm) hne
        · rename_i hguard
          apply ih
          intro a ha b hb hne
          rcases not_and_or.1 hguard with hsel | hmax
          · have hsel' : sel = [] := not_not.1 hsel
            subst hsel'
            have ha1 : a = p.1 := by simpa using ha
            have hb1 : b = p.1 := by simpa using hb
            exact absurd (ha1.trans hb1.symm) hne
          · have h1 : (1 : ℚ) ≤ cfg.max_correlation := le_of_not_lt hmax
            exact le_trans (hbd a b) h1

/-- C2: the greedy selection of _select_features respects both bounds:
when top_k is configured the selected list never exceeds it, and any two
distinct selected features have absolute correlation at most
max_correlation (given that the black-box Pearson correlation is symmetric
and bounded by 1, which covers the skipped check when max_correlation >= 1). -/
theorem C2_selection_bounds :
    (∀ (cfg : FeatureSelectionConfig) (corr : String → String → ℚ)
        (fs : List (String × List (String × ℚ))) (names : List String) (k : Nat),
      cfg.top_k = some k → (select_features cfg corr fs names).1.length ≤ k) ∧
    (∀ (cfg : FeatureSelectionConfig) (corr : String → String → ℚ)
        (fs : List (String × List (String × ℚ))) (names : List String),
      (∀ a b, corr a b = corr b a) → (∀ a b, |corr a b| ≤ 1) →
      ∀ a ∈ (select_features cfg corr fs names).1,
        ∀ b ∈ (select_features cfg corr fs names).1,
          a ≠ b → |corr a b| ≤ cfg.max_correlation) := by
  constructor
  · intro cfg corr fs names k hk
    exact selectLoop_length_le cfg corr k hk _ [] [] (Nat.zero_le k)
  · intro cfg corr fs names hsym hbd
    exact selectLoop_pairwise cfg corr hsym hbd _ [] [] (by intro a ha; cases ha)

/-- C2 witness: with both scored features selected under top_k = 2 and the
zero correlation function, the bounds hold at a concrete instance. -/
theorem C2_selection_bounds_witness :
    (select_features { top_k := some 2, threshold := none, max_correlation := 95 / 100 }
        (fun _ _ => 0) [("m1", [("a", 1), ("b", 3), ("c", 2)])] ["a", "b", "c"]).1.length ≤ 2 ∧
    |(fun (_ _ : String) => (0 : ℚ)) "b" "c"| ≤
      ({ top_k := some 2, threshold := none, max_correlation := 95 / 100 } :
        FeatureSelectionConfig).max_correlation :=
  ⟨C2_selection_bounds.1 _ (fun _ _ => 0) [("m1", [("a", 1), ("b", 3), ("c", 2)])]
      ["a", "b", "c"] 2 rfl,
    C2_selection_bounds.2 { top_k := some 2, threshold := none, max_correlation := 95 / 100 }
      (fun _ _ => 0) [("m1", [("a", 1), ("b", 3), ("c", 2)])] ["a", "b", "c"]
      (fun _ _ => rfl) (fun _ _ => by norm_num) "b"
      (by
        have s1 : ¬ ("a" = "b") := by decide
        have s2 : ¬ ("b" = "a") := by decide
        have s3 : ¬ ("a" = "c") := by decide
        have s4 : ¬ ("c" = "a") := by decide
        have s5 : ¬ ("b" = "c") := by decide
        have s6 : ¬ ("c" = "b") := by decide
        norm_num [select_features, sortedFeatures, aggregatedScores, selectLoop, meanQ,
          alookup, s1, s2, s3, s4, s5, s6, eq_self_iff_true, List.insertionSort,
          List.orderedInsert, List.filterMap, List.reduceOption])
      "c"
      (by
        have s1 : ¬ ("a" = "b") := by decide
        have s2 : ¬ ("b" = "a") := by decide
        have s3 : ¬ ("a" = "c") := by decide
        have s4 : ¬ ("c" = "a") := by decide
        have s5 : ¬ ("b" = "c") := by decide
        have s6 : ¬ ("c" = "b") := by decide
        norm_num [select_features, sortedFeatures, aggregatedScores, selectLoop, meanQ,
          alookup, s1, s2, s3, s4, s5, s6, eq_self_iff_true, List.insertionSort,
          List.orderedInsert, List.filterMap, List.reduceOption])
      (by decide)⟩

/-! ## Claim C3: counterexample -/

/-- C3 counterexample: after fitting with a non-binary numeric target,
feature_mapping has no entry at all for the target column, so
feature_mapping[target] == [target] fails (the repository's own
tests/test_binary_features.py line 137 asserts the absence). -/
theorem C3_counterexample :
    ¬ (alookup (fit_transform_numerical (initFE {}) [("t", [some 0, some 1, some 2])]
        ["t"] (some "t")).1.feature_mapping "t" = some ["t"]) := by
  decide

/-! ## Claim C4: counterexample -/

/-- C4 counterexample: after fitting column x on values 0..3 with 2 bins
(fitted edges -0.003, 1.5, 3), transforming the out-of-range value 100
leaves the binned cell missing (pd.cut assigns NaN outside the edges); it
is not clamped into any bin index, contradicting the claim. -/
theorem C4_counterexample :
    ((transform_numerical
        (fit_transform_numerical (initFE exBinCfg) exBinDF ["x"] none).1
        exBinDF2 ["x"]).toOption.bind (fun r => alookup r (binName "x" 2))) =
      some [none] ∧
    ∀ i : Nat, ([(none : Option ℚ)] : NumCol) ≠ [some (i : ℚ)] := by
  constructor
  · have hb2 : "x" ++ "_binned_" ++ toString 2 = "x_binned_2" := rfl
    have hcap : "x" ++ "_capped" = "x_capped" := rfl
    have s1 : ¬ ("x" = "x_capped") := by decide
    have s2 : ¬ ("x_capped" = "x") := by decide
    have s3 : ¬ ("x" = "x_binned_2") := by decide
    have s4 : ¬ ("x_binned_2" = "x") := by decide
    have s5 : ¬ ("x_capped" = "x_binned_2") := by decide
    have s6 : ¬ ("x_binned_2" = "x_capped") := by decide
    have ht0 : Int.toNat 0 = 0 := rfl
    have ht2 : Int.toNat 2 = 2 := rfl
    have g0 : ([0, 1, 2, 3] : List ℚ).getD (0 : Nat) 0 = 0 := rfl
    have g1 : ([0, 1, 2, 3] : List ℚ).getD (1 : Nat) 0 = 1 := rfl
    have g2 : ([0, 1, 2, 3] : List ℚ).getD (2 : Nat) 0 = 2 := rfl
    have g3 : ([0, 1, 2, 3] : List ℚ).getD (3 : Nat) 2 = 3 := rfl
    norm_num [transform_numerical, transformNGo, applyTcolsN, applyStatN,
      fit_transform_numerical, setTarget, initFE, exBinCfg, exBinDF, exBinDF2, binaryColsN,
      colsToTransformN, numDerive, percentile, interpAt, clipQ, pdCutFit, pdCutEdgesL, fitEdges,
      linEdges, cutIdx, cutSearch, dedupC, listMin, listMax, dropna, nuniqueO, uniquesFO,
      writeAll, upsert, lastW, alookup, colOf, cappedName, binName, hb2, hcap, s1, s2, s3,
      s4, s5, s6, ht0, ht2, g0, g1, g2, g3, eq_self_iff_true, List.filterMap,
      List.insertionSort, List.orderedInsert, Except.toOption, List.foldl, min_def, max_def]
  · intro i h
    have := List.head_eq_of_cons_eq h
    simp at this

/-! ## Claim C7: counterexample -/

/-- C7 counterexample: the fitted capped column of a column holding a
missing cell keeps that cell missing, so not every row of the capped
output lies in the closed interval of the fitted percentiles. -/
theorem C7_counterexample :
    alookup (fit_transform_numerical (initFE exCapCfg) exCapDF ["x"] none).2
        (cappedName "x") =
      some [some (3 / 100), some 1, some 2, some (297 / 100), none] ∧
    ¬ (∀ o ∈ ([some (3 / 100), some 1, some 2, some (297 / 100), none] : NumCol),
        ∃ q : ℚ, o = some q ∧ percentile [0, 1, 2, 3] 1 ≤ q ∧ q ≤ percentile [0, 1, 2, 3] 99) := by
  constructor
  · have hcap : "x" ++ "_capped" = "x_capped" := rfl
    have s1 : ¬ ("x" = "x_capped") := by decide
    have s2 : ¬ ("x_capped" = "x") := by decide
    have ht0 : Int.toNat 0 = 0 := rfl
    have ht2 : Int.toNat 2 = 2 := rfl
    have g0 : ([0, 1, 2, 3] : List ℚ).getD (0 : Nat) 0 = 0 := rfl
    have g1 : ([0, 1, 2, 3] : List ℚ).getD (1 : Nat) 0 = 1 := rfl
    have g2 : ([0, 1, 2, 3] : List ℚ).getD (2 : Nat) 0 = 2 := rfl
    have g3 : ([0, 1, 2, 3] : List ℚ).getD (3 : Nat) 2 = 3 := rfl
    norm_num [fit_transform_numerical, setTarget, initFE, exCapCfg, exCapDF, binaryColsN,
      colsToTransformN, numDerive, percentile, interpAt, clipQ, pdCutFit, fitEdges, linEdges, listMin,
      listMax, dropna, nuniqueO, uniquesFO, writeAll, upsert, lastW, alookup, colOf,
      cappedName, hcap, s1, s2, ht0, ht2, g0, g1, g2, g3, eq_self_iff_true, List.filterMap,
      List.insertionSort, List.orderedInsert, List.foldl, min_def, max_def]
  · intro h
    rcases h none (by simp) with ⟨q, hq, -⟩
    cases hq

/-! ## Claim C1: counterexample -/

/-- C1 counterexample: the categorical column c holds values a (4 times),
b (2), c (1) and one missing cell; with min_category_freq 0.3 the rare
categories b and c are grouped as b_c_other at fit time while the missing
cell stays missing, but replaying transform_categorical on the very same
dataframe maps the missing cell to the fallback label b_other, so the
replay does not reproduce the fitted output. -/
theorem C1_counterexample :
    transform_categorical (fit_transform_categorical (initFE exCatCfg) exCatDF ["c"] none).1
        exCatDF ["c"] ≠
      Except.ok (fit_transform_categorical (initFE exCatCfg) exCatDF ["c"] none).2 := by
  have hg : "c" ++ "_grouped" = "c_grouped" := rfl
  have ho : String.intercalate "_" (List.take 3 ["b", "c"]) ++ "_other" = "b_c_other" := rfl
  have hf : "b" ++ "_other" = "b_other" := rfl
  have s1 : ¬ ("a" = "b") := by decide
  have s2 : ¬ ("b" = "a") := by decide
  have s3 : ¬ ("a" = "c") := by decide
  have s4 : ¬ ("c" = "a") := by decide
  have s5 : ¬ ("b" = "c") := by decide
  have s6 : ¬ ("c" = "b") := by decide
  have s7 : ¬ ("c" = "c_grouped") := by decide
  have s8 : ¬ ("c_grouped" = "c") := by decide
  norm_num [transform_categorical, transformCGo, applyTcolsC, regroupVals, fallbackLabel,
    fit_transform_categorical, setTarget, initFE, exCatCfg, exCatDF, binaryColsC,
    colsToTransformC, rareOf, freqOf, valueCountsIdx, countOf, otherLabel, catMapping,
    groupedVals, groupedName, dropna, nuniqueO, uniquesFO, writeAll, upsert, lastW, alookup,
    colOf, hg, ho, hf, s1, s2, s3, s4, s5, s6, s7, s8, eq_self_iff_true, Option.some_ne_none,
    List.filterMap, List.insertionSort, List.orderedInsert, List.foldl, List.countP_cons,
    List.countP_nil]

/-! ## Untouched-lookup lemmas for the amended claims -/

theorem fitN_mapping_untouched (s0 : FEState) (df : NumDF) (cols : List String)
    (tgt : Option String) (c : String) (hb : c ∉ binaryColsN df cols)
    (hc : c ∉ colsToTransformN df cols (setTarget s0 tgt).target_col) :
    alookup (fit_transform_numerical s0 df cols tgt).1.feature_mapping c =
      alookup s0.feature_mapping c := by
  rw [fitN_state_mapping, alookup_writeAll, alookup_writeAll]
  rw [lastW_eq_none _ c (by
    intro w hw
    rcases List.mem_map.1 hw with ⟨c', hc', rfl⟩
    intro hcc
    have hcc' : c' = c := hcc
    exact hc (hcc' ▸ hc')), Option.none_or]
  rw [lastW_eq_none _ c (by
    intro w hw
    rcases List.mem_map.1 hw with ⟨c', hc', rfl⟩
    intro hcc
    have hcc' : c' = c := hcc
    exact hb (hcc' ▸ hc')), Option.none_or]

theorem fitN_out_untouched (s0 : FEState) (df : NumDF) (cols : List String)
    (tgt : Option String) (H2 : (allNamesN s0.config cols).Nodup) (c : String)
    (hccols : c ∈ cols)
    (hc : c ∉ colsToTransformN df cols (setTarget s0 tgt).target_col)
    (k : String) (hk : k ∈ derivedNamesN s0.config c) :
    alookup (fit_transform_numerical s0 df cols tgt).2 k = alookup df k := by
  obtain ⟨-, -, hdisj, -⟩ := allNamesN_parts s0.config cols H2
  rw [fitN_out, alookup_writeAll]
  rw [lastW_flatMap_none _ _ k (by
    intro c' hc' w hw
    rcases List.mem_map.1 hw with ⟨d, hd, rfl⟩
    have hc'cols : c' ∈ cols := ((mem_colsToTransformN df cols _ c').1 hc').1
    have hne : c' ≠ c := fun he => hc (he ▸ hc')
    intro heq
    exact hdisj c' hc'cols c hccols hne (numDerive_key_mem _ _ _ d hd)
      (by rw [show d.1 = k from heq]; exact hk)), Option.none_or]

theorem fitC_out_untouched (s0 : FEState) (df : CatDF) (cols : List String)
    (tgt : Option String) (H2 : (allNamesC cols).Nodup) (c : String)
    (hccols : c ∈ cols)
    (hc : c ∉ colsToTransformC df cols (setTarget s0 tgt).target_col) :
    alookup (fit_transform_categorical s0 df cols tgt).2 (groupedName c) =
      alookup df (groupedName c) := by
  have hA : (cols ++ cols.map groupedName).Nodup := H2
  have hnd : (cols.map groupedName).Nodup := (List.nodup_append.1 hA).2.1
  rw [fitC_out, alookup_writeAll]
  rw [lastW_eq_none _ _ (by
    intro w hw
    rcases List.mem_filterMap.1 hw with ⟨c', hc', hfc'⟩
    by_cases hr : rareOf s0.config (colOf df c') = []
    · rw [if_pos hr] at hfc'; cases hfc'
    · rw [if_neg hr] at hfc'
      cases hfc'
      intro heq
      have hc'cols : c' ∈ cols := List.mem_of_mem_filter hc'
      have hc'c : c' = c := List.inj_on_of_nodup_map hnd hc'cols hccols heq
      exact hc (hc'c ▸ hc')), Option.none_or]

/-! ## Claim C1: amended replay theorem -/

/-- C1 (corrected): replaying a fitted engineer on its own fitting data
reproduces the fitted output for the numerical pipeline (given pairwise
distinct original and derived column names and a target outside the
requested columns); the categorical pipeline replays identically only when
the requested columns carry no missing cells and were not previously
mapped — a missing cell stays missing at fit time but is filled with the
fallback label at replay (see C1_counterexample), so the unconditional
replay-idempotence claim is false. -/
theorem C1_replay_amended (s0 : FEState) (df : NumDF) (dfc : CatDF)
    (cols ccols : List String) (tgt : Option String)
    (H1 : ∀ t, (setTarget s0 tgt).target_col = some t → t ∉ cols)
    (H2 : (allNamesN s0.config cols).Nodup)
    (H1c : ∀ t, (setTarget s0 tgt).target_col = some t → t ∉ ccols)
    (H2c : (allNamesC ccols).Nodup)
    (H5 : ∀ c ∈ ccols, alookup s0.feature_mapping c = none)
    (H6 : ∀ c ∈ ccols, (none : Option String) ∉ colOf dfc c) :
    transform_numerical (fit_transform_numerical s0 df cols tgt).1 df cols =
      Except.ok (fit_transform_numerical s0 df cols tgt).2 ∧
    transform_categorical (fit_transform_categorical s0 dfc ccols tgt).1 dfc ccols =
      Except.ok (fit_transform_categorical s0 dfc ccols tgt).2 :=
  ⟨transformN_replays_fit s0 df cols tgt H1 H2,
   transformC_replays_fit s0 dfc ccols tgt H1c H2c H5 H6⟩

/-- Witness for C1_replay_amended on a concrete numerical and categorical
fit. -/
theorem C1_replay_amended_witness :
    ((allNamesN exBinCfg ["x"]).Nodup ∧ (allNamesC ["c"]).Nodup ∧
      (none : Option String) ∉ [some "u", some "u", some "v"]) ∧
    transform_numerical
        (fit_transform_numerical (initFE exBinCfg) exBinDF ["x"] none).1 exBinDF ["x"] =
      Except.ok (fit_transform_numerical (initFE exBinCfg) exBinDF ["x"] none).2 ∧
    transform_categorical
        (fit_transform_categorical (initFE exBinCfg)
          [("c", [some "u", some "u", some "v"])] ["c"] none).1
        [("c", [some "u", some "u", some "v"])] ["c"] =
      Except.ok (fit_transform_categorical (initFE exBinCfg)
        [("c", [some "u", some "u", some "v"])] ["c"] none).2 := by
  refine ⟨⟨by decide, by decide, by decide⟩, ?_⟩
  exact C1_replay_amended (initFE exBinCfg) exBinDF
    [("c", [some "u", some "u", some "v"])] ["x"] ["c"] none
    (fun t h => Option.noConfusion h) (by decide)
    (fun t h => Option.noConfusion h) (by decide)
    (fun c _ => rfl) (by decide)

/-! ## Claim C3: amended binary/target theorem -/

/-- C3 (corrected): binary columns keep the claimed behaviour in both
pipelines — identity feature mapping and no derived columns (for the
categorical fit provided the column was not previously mapped) — and the
designated non-binary target column also gets no derived column; but the
target's feature_mapping entry is not [target]: the fits write no entry
for it at all, its lookup stays whatever it was before the fit (see
C3_counterexample; the repository's own test asserts the absence). -/
theorem C3_binary_target_amended (s0 : FEState) (df : NumDF) (dfc : CatDF)
    (cols ccols : List String) (tgt : Option String)
    (H2 : (allNamesN s0.config cols).Nodup)
    (H2c : (allNamesC ccols).Nodup) :
    (∀ c ∈ binaryColsN df cols,
      alookup (fit_transform_numerical s0 df cols tgt).1.feature_mapping c = some [c] ∧
      ∀ k ∈ derivedNamesN s0.config c,
        alookup (fit_transform_numerical s0 df cols tgt).2 k = alookup df k) ∧
    (∀ t, (setTarget s0 tgt).target_col = some t → t ∈ cols →
      t ∉ binaryColsN df cols →
      alookup (fit_transform_numerical s0 df cols tgt).1.feature_mapping t =
        alookup s0.feature_mapping t ∧
      ∀ k ∈ derivedNamesN s0.config t,
        alookup (fit_transform_numerical s0 df cols tgt).2 k = alookup df k) ∧
    (∀ c ∈ binaryColsC dfc ccols, alookup s0.feature_mapping c = none →
      alookup (fit_transform_categorical s0 dfc ccols tgt).1.feature_mapping c =
        some [c] ∧
      alookup (fit_transform_categorical s0 dfc ccols tgt).2 (groupedName c) =
        alookup dfc (groupedName c)) ∧
    (∀ t, (setTarget s0 tgt).target_col = some t → t ∈ ccols →
      t ∉ binaryColsC dfc ccols →
      alookup (fit_transform_categorical s0 dfc ccols tgt).1.feature_mapping t =
        alookup s0.feature_mapping t ∧
      alookup (fit_transform_categorical s0 dfc ccols tgt).2 (groupedName t) =
        alookup dfc (groupedName t)) := by
  refine ⟨?_, ?_, ?_, ?_⟩
  · intro c hb
    refine ⟨fitN_mapping_binary s0 df cols tgt c hb, ?_⟩
    intro k hk
    exact fitN_out_untouched s0 df cols tgt H2 c (List.mem_of_mem_filter hb)
      (binary_not_colsT df cols _ c hb) k hk
  · intro t ht htcols htb
    have hnotT : t ∉ colsToTransformN df cols (setTarget s0 tgt).target_col := by
      intro hmem
      exact ((mem_colsToTransformN df cols _ t).1 hmem).2.1 ht
    refine ⟨fitN_mapping_untouched s0 df cols tgt t htb hnotT, ?_⟩
    intro k hk
    exact fitN_out_untouched s0 df cols tgt H2 t htcols hnotT k hk
  · intro c hb h5
    refine ⟨fitC_mapping_binary s0 dfc ccols tgt c hb h5, ?_⟩
    exact fitC_out_untouched s0 dfc ccols tgt H2c c (List.mem_of_mem_filter hb)
      (binary_not_colsTC dfc ccols _ c hb)
  · intro t ht htcols htb
    have hnotT : t ∉ colsToTransformC dfc ccols (setTarget s0 tgt).target_col := by
      intro hmem
      exact ((mem_colsToTransformC dfc ccols _ t).1 hmem).2.1 ht
    exact ⟨fitC_mapping_untouched s0 dfc ccols tgt t htb hnotT,
      fitC_out_untouched s0 dfc ccols tgt H2c t htcols hnotT⟩

/-- Witness for C3_binary_target_amended: a binary column b keeps its
identity mapping while the non-binary target t gets no mapping entry. -/
theorem C3_binary_target_amended_witness :
    ((allNamesN exBinCfg ["b", "t"]).Nodup ∧ (allNamesC ["cb"]).Nodup ∧
      "b" ∈ binaryColsN
        [("b", [some 0, some 1, some 0]), ("t", [some 0, some 1, some 2])] ["b", "t"] ∧
      (setTarget (initFE exBinCfg) (some "t")).target_col = some "t" ∧
      "t" ∉ binaryColsN
        [("b", [some 0, some 1, some 0]), ("t", [some 0, some 1, some 2])] ["b", "t"]) ∧
    alookup (fit_transform_numerical (initFE exBinCfg)
        [("b", [some 0, some 1, some 0]), ("t", [some 0, some 1, some 2])]
        ["b", "t"] (some "t")).1.feature_mapping "b" = some ["b"] ∧
    alookup (fit_transform_numerical (initFE exBinCfg)
        [("b", [some 0, some 1, some 0]), ("t", [some 0, some 1, some 2])]
        ["b", "t"] (some "t")).1.feature_mapping "t" =
      alookup (initFE exBinCfg).feature_mapping "t" := by
  have hb : "b" ∈ binaryColsN
      [("b", [some 0, some 1, some 0]), ("t", [some 0, some 1, some 2])] ["b", "t"] := by
    decide
  have htb : "t" ∉ binaryColsN
      [("b", [some 0, some 1, some 0]), ("t", [some 0, some 1, some 2])] ["b", "t"] := by
    decide
  have hT : (setTarget (initFE exBinCfg) (some "t")).target_col = some "t" := by decide
  have H2 : (allNamesN exBinCfg ["b", "t"]).Nodup := by decide
  have H2c : (allNamesC ["cb"]).Nodup := by decide
  obtain ⟨h1, h2, -, -⟩ := C3_binary_target_amended (initFE exBinCfg)
    [("b", [some 0, some 1, some 0]), ("t", [some 0, some 1, some 2])]
    [("cb", [some "x", some "y", some "x"])] ["b", "t"] ["cb"] (some "t") H2 H2c
  exact ⟨⟨H2, H2c, hb, hT, htb⟩, (h1 "b" hb).1,
    (h2 "t" hT (by decide) htb).1⟩

/-! ## Claim C4: amended binning theorem -/

/-- C4 (corrected): replaying a fitted binned variant recomputes pd.cut
against the stored edges with include_lowest; a value outside the fitted
edge range is left missing (pd.cut assigns NaN), not clamped to the first
or last bin as the claim states (see C4_counterexample), while every
in-range value receives a bin index. -/
theorem C4_out_of_range_missing (xs xs2 : NumCol) (n : Nat) (labels : NumCol)
    (edges : List ℚ) (h : pdCutFit xs n = some (labels, edges)) :
    applyStatN xs2 (TStat.binned n edges) =
      some (xs2.map (fun o =>
        o.bind (fun v => (cutIdx edges true v).map (fun i => (i : ℚ))))) ∧
    ∃ e0 e1 rest, edges = e0 :: e1 :: rest ∧
      (∀ v : ℚ, v < e0 → cutIdx edges true v = none) ∧
      (∀ v : ℚ, edges.getLastD 0 < v → cutIdx edges true v = none) ∧
      (∀ v : ℚ, e0 ≤ v → v ≤ edges.getLastD 0 → ∃ i, cutIdx edges true v = some i) := by
  obtain ⟨hn, hne, hedges, -⟩ := pdCutFit_inv xs n labels edges h
  have hchain : List.Chain' (· < ·) edges := by
    rw [hedges]
    exact fitEdges_chain _ _ n hn (listMin_le_listMax _ hne)
  have hlen : edges.length = n + 1 := by
    rw [hedges]; exact fitEdges_length _ _ n
  constructor
  · show some (pdCutEdgesL xs2 edges) = _
    unfold pdCutEdgesL
    rw [dedupC_of_chain edges hchain]
  · rcases edges with _ | ⟨e0, tail⟩
    · have h0 : (0 : Nat) = n + 1 := hlen
      exact absurd h0 (by omega)
    rcases tail with _ | ⟨e1, rest⟩
    · have h1 : (1 : Nat) = n + 1 := hlen
      have hn0 : n = 0 := by omega
      exact absurd hn0 hn
    have h01 : e0 < e1 := (List.chain'_cons.1 hchain).1
    have hch2 : List.Chain' (· < ·) (e1 :: rest) := (List.chain'_cons.1 hchain).2
    have hld : (e0 :: e1 :: rest).getLastD 0 = (e1 :: rest).getLastD 0 := by
      simp only [List.getLastD_cons]
    refine ⟨e0, e1, rest, rfl, ?_, ?_, ?_⟩
    · intro v hv
      show (if e0 ≤ v ∧ v ≤ e1 then some 0
        else (cutSearch (e1 :: rest) v).map (· + 1)) = none
      rw [if_neg (fun hc => absurd hc.1 (not_le.2 hv)),
        cutSearch_none_of_le (e1 :: rest) v (by
          intro e he
          rcases List.mem_cons.1 he with rfl | he'
          · exact le_of_lt (hv.trans h01)
          · exact le_of_lt (hv.trans (h01.trans (chain_head_lt e1 rest hch2 e he'))))]
      rfl
    · intro v hv
      rw [hld] at hv
      have he1 : e1 ≤ (e1 :: rest).getLastD 0 :=
        chain_le_getLastD e1 rest hch2 e1 (List.mem_cons_self _ _)
      show (if e0 ≤ v ∧ v ≤ e1 then some 0
        else (cutSearch (e1 :: rest) v).map (· + 1)) = none
      rw [if_neg (fun hc => absurd hc.2 (not_le.2 (lt_of_le_of_lt he1 hv))),
        cutSearch_none_of_gt (e1 :: rest) v (fun e he =>
          lt_of_le_of_lt (chain_le_getLastD e1 rest hch2 e he) hv)]
      rfl
    · intro v h0 hlastv
      by_cases hv1 : v ≤ e1
      · refine ⟨0, ?_⟩
        show (if e0 ≤ v ∧ v ≤ e1 then some 0
          else (cutSearch (e1 :: rest) v).map (· + 1)) = some 0
        rw [if_pos ⟨h0, hv1⟩]
      · have hv1' : e1 < v := by push_neg at hv1; exact hv1
        obtain ⟨i, hi⟩ := cutSearch_some e1 rest v hv1' (by
          rw [hld] at hlastv; exact hlastv)
        refine ⟨i + 1, ?_⟩
        show (if e0 ≤ v ∧ v ≤ e1 then some 0
          else (cutSearch (e1 :: rest) v).map (· + 1)) = some (i + 1)
        rw [if_neg (fun hc => hv1 hc.2), hi]
        rfl

/-- Witness for C4_out_of_range_missing: edges fitted on 0..3 with 2 bins
leave the out-of-range value 100 unassigned. -/
theorem C4_out_of_range_missing_witness :
    pdCutFit [some 0, some 1, some 2, some 3] 2 =
      some ([some 0, some 0, some 1, some 1], [-(3 : ℚ)/1000, 3/2, 3]) ∧
    cutIdx [-(3 : ℚ)/1000, 3/2, 3] true 100 = none := by
  have h : pdCutFit [some (0 : ℚ), some 1, some 2, some 3] 2 =
      some ([some 0, some 0, some 1, some 1], [-(3 : ℚ)/1000, 3/2, 3]) := by
    norm_num [pdCutFit, fitEdges, linEdges, cutIdx, cutSearch, dropna, listMin,
      listMax, List.filterMap, List.foldl, min_def, max_def, eq_self_iff_true]
  refine ⟨h, ?_⟩
  obtain ⟨-, e0, e1, rest, -, -, hgt, -⟩ :=
    C4_out_of_range_missing [some 0, some 1, some 2, some 3] [some 100] 2
      [some 0, some 0, some 1, some 1] [-(3 : ℚ)/1000, 3/2, 3] h
  exact hgt 100 (by
    rw [show ([-(3 : ℚ)/1000, 3/2, 3].getLastD 0) = 3 from rfl]
    norm_num)

/-! ## Claim C7: amended capping theorem -/

/-- C7 (corrected): the fitted capped variant clips every non-missing cell
into the closed percentile interval computed from the fitting data's
non-missing values, both at fit time and on any replay data, and the
clipped bounds are ordered; missing cells, however, stay missing rather
than landing in the interval (see C7_counterexample), so the claim holds
for every non-missing row only. -/
theorem C7_capping_bounds (cfg : FeatureTransformConfig) (xs xs2 : NumCol) (c : String)
    (h0 : 0 ≤ cfg.capLo) (h12 : cfg.capLo ≤ cfg.capHi) (h100 : cfg.capHi ≤ 100)
    (hne : dropna xs ≠ []) :
    percentile (dropna xs) cfg.capLo ≤ percentile (dropna xs) cfg.capHi ∧
    (numDerive cfg xs c).head? = some (cappedName c,
      xs.map (Option.map (fun v => clipQ v (percentile (dropna xs) cfg.capLo)
        (percentile (dropna xs) cfg.capHi))),
      TStat.capped (percentile (dropna xs) cfg.capLo)
        (percentile (dropna xs) cfg.capHi)) ∧
    (∀ v : ℚ, percentile (dropna xs) cfg.capLo ≤
        clipQ v (percentile (dropna xs) cfg.capLo) (percentile (dropna xs) cfg.capHi) ∧
      clipQ v (percentile (dropna xs) cfg.capLo) (percentile (dropna xs) cfg.capHi) ≤
        percentile (dropna xs) cfg.capHi) ∧
    applyStatN xs2 (TStat.capped (percentile (dropna xs) cfg.capLo)
        (percentile (dropna xs) cfg.capHi)) =
      some (xs2.map (Option.map (fun v => clipQ v (percentile (dropna xs) cfg.capLo)
        (percentile (dropna xs) cfg.capHi)))) := by
  have hmono := percentile_mono (dropna xs) hne cfg.capLo cfg.capHi h0 h12 h100
  exact ⟨hmono, rfl, fun v => clipQ_mem v _ _ hmono, rfl⟩

/-- Witness for C7_capping_bounds on the capping example column. -/
theorem C7_capping_bounds_witness :
    ((0 : ℚ) ≤ exCapCfg.capLo ∧ exCapCfg.capLo ≤ exCapCfg.capHi ∧
      exCapCfg.capHi ≤ 100 ∧
      dropna [some (0 : ℚ), some 1, some 2, some 3, none] ≠ []) ∧
    percentile [0, 1, 2, 3] exCapCfg.capLo ≤ percentile [0, 1, 2, 3] exCapCfg.capHi := by
  have h0 : (0 : ℚ) ≤ exCapCfg.capLo := by norm_num [exCapCfg]
  have h12 : exCapCfg.capLo ≤ exCapCfg.capHi := by norm_num [exCapCfg]
  have h100 : exCapCfg.capHi ≤ (100 : ℚ) := by norm_num [exCapCfg]
  have hne : dropna [some (0 : ℚ), some 1, some 2, some 3, none] ≠ [] := by decide
  refine ⟨⟨h0, h12, h100, hne⟩, ?_⟩
  exact (C7_capping_bounds exCapCfg [some 0, some 1, some 2, some 3, none] [] "x"
    h0 h12 h100 hne).1

end Piaa
